import Mathlib

/-!
# Host program of the OpenCL histogram equaliser (`ppAssignment.cpp`)

A shallow embedding of `main`: the host vectors, the device buffers, the
statements of one attempt (the body of the `try` block) in source order, the
repair loop over the cumulative histogram, the display-wait loop and the outer
`while (main)` loop.  The four device kernels live in `kernels/my_kernels.cl`
and are parameters of the model.
-/

namespace PPAssignment

/-! ## The repair loop (lines 122-129) -/

/-- Body of the repair loop for one index `i` (lines 125-128): the entry is
overwritten by its predecessor when it is smaller.  A subscript outside the
vector has no defined result in the source and gives `none`. -/
def repairStep (cumulativeHist : List Int) (i : Nat) : Option (List Int) :=
  match cumulativeHist[i]?, cumulativeHist[i - 1]? with
  | some x, some y =>
      if x < y then some (cumulativeHist.set i y) else some cumulativeHist
  | _, _ => none

/-- The loop `for (i = 1; i < 256; i++)`: the first argument counts the
iterations still to run, the second is the loop variable `i`. -/
def repairLoop : Nat → Nat → List Int → Option (List Int)
  | 0, _, cumulativeHist => some cumulativeHist
  | k + 1, i, cumulativeHist =>
      match repairStep cumulativeHist i with
      | some v => repairLoop k (i + 1) v
      | none => none

/-- The whole repair loop of lines 123-129: `i` runs from 1 to 255. -/
def repair (cumulativeHist : List Int) : Option (List Int) :=
  repairLoop (256 - 1) 1 cumulativeHist

/-- Running maximum of the entries `v[0..i]` (an entry outside the vector
reads as 0; the theorems only use it inside the vector). -/
def runningMax (v : List Int) : Nat → Int
  | 0 => v.getD 0 0
  | i + 1 => max (runningMax v i) (v.getD (i + 1) 0)

/-- A 256-entry scan output that starts with the corrupted run 1,1,0,5,4,6. -/
def corruptedScan : List Int := [1, 1, 0, 5, 4, 6] ++ List.replicate 250 6

/-- A 256-entry scan output that is constant, hence already non-decreasing. -/
def flatScan : List Int := List.replicate 256 3

/-- A 256-entry scan output whose entry 254 is above its final entry 5. -/
def overshootScan : List Int := List.replicate 254 0 ++ [7, 5]

/-! ## Data of one attempt -/

/-- The number of bins, `int bin = 256` (line 53). -/
def bin : Nat := 256

/-- Modelled from the spec: the image type `CImg<unsigned char>` of `CImg.h`,
which is not among the sources: a grid of samples with a width, a height, a
depth and a channel count (spectrum), stored as one sample sequence. -/
structure CImg where
  width : Nat
  height : Nat
  depth : Nat
  spectrum : Nat
  data : List Int
deriving DecidableEq

/-- The sample count `size()` of an image: width*height*depth*spectrum. -/
def CImg.size (img : CImg) : Nat :=
  img.width * img.height * img.depth * img.spectrum

/-- The empty image: all four dimensions are 0. -/
def CImg.empty : CImg := ⟨0, 0, 0, 0, []⟩

/-- Modelled from the spec: the constructor `CImg(values, sx, sy, sz, sc)` of
`CImg.h` used on line 157.  It copies `sx*sy*sz*sc` samples from `values` and
takes the four dimensions as given; when that product is 0 the library builds
the empty image instead. -/
def CImg.ofValues (values : List Int) (sx sy sz sc : Nat) : CImg :=
  if sx * sy * sz * sc = 0 then CImg.empty
  else ⟨sx, sy, sz, sc, values.take (sx * sy * sz * sc)⟩

/-- The class invariant of `CImg`: an image without samples has all four
dimensions 0. -/
def CImg.Valid (img : CImg) : Prop :=
  img.size = 0 → img.width = 0 ∧ img.height = 0 ∧ img.depth = 0 ∧ img.spectrum = 0

/-- Contents of a device buffer: the element stored at each offset.  Offsets
at or beyond the allocated size are never transferred by the host. -/
abbrev Mem := Nat → Int

/-- The five device buffers of lines 65-69. -/
inductive BufId
  | inputBuff
  | outputBuff
  | histBuff
  | cumulativeHistBuff
  | equalisedHistBuff
deriving DecidableEq

/-- The four kernel objects of lines 77-96. -/
inductive KernelId
  | kerIntenseHist
  | kerCumulativeHist
  | kerEqualisedHist
  | kerBackProj
deriving DecidableEq

/-- The host variables that are sources or targets of a buffer transfer. -/
inductive HostVar
  | imageInput
  | intenseHist
  | cumulativeHist
  | equalisedHist
  | outputBuffer
deriving DecidableEq

/-- The access flag given to a buffer at allocation. -/
inductive MemFlag
  | CL_MEM_READ_ONLY
  | CL_MEM_READ_WRITE
deriving DecidableEq

/-- The size expressions of the source, counted in elements:
`bin` (`bin * sizeof(int)` bytes of `int`, or `cl::NDRange(bin)`),
`imageInput.size()` and `outputBuffer.size()`. -/
inductive SizeExpr
  | bin
  | imageSize
  | outputBufferSize
deriving DecidableEq

/-- The three build properties printed by the handler of lines 42-50. -/
inductive BuildInfo
  | CL_PROGRAM_BUILD_STATUS
  | CL_PROGRAM_BUILD_OPTIONS
  | CL_PROGRAM_BUILD_LOG
deriving DecidableEq

/-- The two display windows. -/
inductive Window
  | showInput
  | showOutput
deriving DecidableEq

/-- The statements of the `try` block, lines 30-158, that act on the backend,
the image library or the data of the attempt. -/
inductive Op
  | GetContext
  | CommandQueue
  | AddSources
  | Program
  | getInfoDevices
  | build
  | getBuildInfo (what : BuildInfo)
  | imageInput
  | vector (v : HostVar) (n : SizeExpr)
  | Buffer (b : BufId) (flag : MemFlag) (n : SizeExpr)
  | Kernel (k : KernelId)
  | setArg (k : KernelId) (index : Nat) (b : BufId)
  | CImgDisplay (w : Window)
  | ListPlatformsDevices
  | enqueueWriteBuffer (b : BufId) (n : SizeExpr) (src : HostVar)
  | enqueueNDRangeKernel (k : KernelId) (global : SizeExpr)
  | enqueueReadBuffer (b : BufId) (n : SizeExpr) (dst : HostVar)
  | GetFullProfilingInfo
  | repairLoop
  | output_image
deriving DecidableEq

/-- The two exception types caught at the end of the `try` block. -/
inductive Err
  | clError (code : Int)
  | CImgException
deriving DecidableEq

/-- What is observed of an attempt, in order: a statement is started, the
handler of line 42 catches a build error, line 49 rethrows it, a handler of
lines 167-172 catches an error. -/
inductive Event
  | exec (op : Op)
  | innerCatch (e : Err)
  | rethrow (e : Err)
  | outerCatch (e : Err)
deriving DecidableEq

/-- The four window signals read by the condition of the display-wait loop. -/
structure Signals where
  showInput_is_closed : Bool
  showInput_is_keyESC : Bool
  showOutput_is_closed : Bool
  showOutput_is_keyESC : Bool
deriving DecidableEq

/-- Everything outside the host program that one attempt depends on. -/
structure Env where
  /-- The statement at this position of the `try` block throws this error. -/
  fails : Nat → Option Err
  /-- The `getBuildInfo` call of the build handler throws this error. -/
  infoFails : BuildInfo → Option Err
  /-- The decoded image file `test.pgm`. -/
  file : CImg
  /-- The indeterminate contents of a newly allocated device buffer. -/
  fresh : BufId → Mem
  /-- The kernels of `kernels/my_kernels.cl` as arbitrary functions: the
  global work size and the contents of the argument buffers, in argument
  order, give the new contents of the argument at each index. -/
  kernel : KernelId → Nat → List Mem → Nat → Mem
  /-- The window signals at each evaluation of the wait-loop condition. -/
  signals : Nat → Signals

/-- The variables of one attempt. -/
structure State where
  imageInput : CImg
  intenseHist : List Int
  cumulativeHist : List Int
  equalisedHist : List Int
  outputBuffer : List Int
  output_image : CImg
  inputBuff : Mem
  outputBuff : Mem
  histBuff : Mem
  cumulativeHistBuff : Mem
  equalisedHistBuff : Mem
  flag : BufId → MemFlag
  bufSize : BufId → Nat
  args : KernelId → Nat → Option BufId
  nargs : KernelId → Nat

/-- Contents of a device buffer. -/
def State.cells (s : State) : BufId → Mem
  | .inputBuff => s.inputBuff
  | .outputBuff => s.outputBuff
  | .histBuff => s.histBuff
  | .cumulativeHistBuff => s.cumulativeHistBuff
  | .equalisedHistBuff => s.equalisedHistBuff

/-- Replace the contents of a device buffer. -/
def State.setCells (s : State) (b : BufId) (m : Mem) : State :=
  match b with
  | .inputBuff => { s with inputBuff := m }
  | .outputBuff => { s with outputBuff := m }
  | .histBuff => { s with histBuff := m }
  | .cumulativeHistBuff => { s with cumulativeHistBuff := m }
  | .equalisedHistBuff => { s with equalisedHistBuff := m }

/-- The elements behind the pointer a transfer is given
(`&imageInput.data()[0]`, `&intenseHist[0]`, ...). -/
def State.hostData (s : State) : HostVar → List Int
  | .imageInput => s.imageInput.data
  | .intenseHist => s.intenseHist
  | .cumulativeHist => s.cumulativeHist
  | .equalisedHist => s.equalisedHist
  | .outputBuffer => s.outputBuffer

/-- Replace the elements of a host variable. -/
def State.setHostData (s : State) (v : HostVar) (d : List Int) : State :=
  match v with
  | .imageInput => { s with imageInput := { s.imageInput with data := d } }
  | .intenseHist => { s with intenseHist := d }
  | .cumulativeHist => { s with cumulativeHist := d }
  | .equalisedHist => { s with equalisedHist := d }
  | .outputBuffer => { s with outputBuffer := d }

/-- Value of a size expression in the current state. -/
def State.sizeOf (s : State) : SizeExpr → Nat
  | .bin => bin
  | .imageSize => s.imageInput.size
  | .outputBufferSize => s.outputBuffer.length

/-- A host-to-device transfer of `n` elements at offset 0. -/
def writeCells (n : Nat) (src : List Int) (old : Mem) : Mem :=
  fun i => if i < n then src.getD i 0 else old i

/-- A device-to-host transfer of `n` elements at offset 0 into a vector. -/
def readCells (n : Nat) (dev : Mem) (dst : List Int) : List Int :=
  (List.range n).map dev ++ dst.drop n

/-- The buffers bound to the arguments of a kernel, in argument order. -/
def State.argList (s : State) (k : KernelId) : List BufId :=
  (List.range (s.nargs k)).filterMap (s.args k)

/-- After a dispatch, the argument buffers a kernel may write
(`CL_MEM_READ_WRITE`) take the contents the kernel left; a
`CL_MEM_READ_ONLY` buffer keeps its contents. -/
def writeBack (out : Nat → Mem) : Nat → List BufId → State → State
  | _, [], s => s
  | j, b :: bs, s =>
      writeBack out (j + 1) bs
        (match s.flag b with
         | .CL_MEM_READ_WRITE => s.setCells b (out j)
         | .CL_MEM_READ_ONLY => s)

/-- Effect of a statement that does not throw; `none` when the statement has
no defined result (only the repair loop, on a vector shorter than 256). -/
def effect (env : Env) (op : Op) (s : State) : Option State :=
  match op with
  | .imageInput => some { s with imageInput := env.file }
  | .vector v n => some (s.setHostData v (List.replicate (s.sizeOf n) 0))
  | .Buffer b f n =>
      some { s.setCells b (env.fresh b) with
        flag := fun x => if x = b then f else s.flag x
        bufSize := fun x => if x = b then s.sizeOf n else s.bufSize x }
  | .Kernel k =>
      some { s with
        args := fun x => if x = k then fun _ => none else s.args x
        nargs := fun x => if x = k then 0 else s.nargs x }
  | .setArg k i b =>
      some { s with
        args := fun x j => if x = k ∧ j = i then some b else s.args x j
        nargs := fun x => if x = k then max (s.nargs k) (i + 1) else s.nargs x }
  | .enqueueWriteBuffer b n src =>
      some (s.setCells b (writeCells (s.sizeOf n) (s.hostData src) (s.cells b)))
  | .enqueueNDRangeKernel k g =>
      some (writeBack (env.kernel k (s.sizeOf g) ((s.argList k).map s.cells)) 0
        (s.argList k) s)
  | .enqueueReadBuffer b n dst =>
      some (s.setHostData dst (readCells (s.sizeOf n) (s.cells b) (s.hostData dst)))
  | .repairLoop =>
      match repair s.cumulativeHist with
      | some r => some { s with cumulativeHist := r }
      | none => none
  | .output_image =>
      some { s with
        output_image := CImg.ofValues s.outputBuffer s.imageInput.width
          s.imageInput.height s.imageInput.depth s.imageInput.spectrum }
  | _ => some s

/-- Why a statement sequence stopped early. -/
inductive Halt
  | thrown (e : Err)
  | undefined
deriving DecidableEq

/-- Result of running statements: the state, the events so far, and why the
sequence stopped early (`none` when it ran to its end). -/
structure Run where
  state : State
  trace : List Event
  halt : Option Halt

/-- The handler of lines 42-50, entered with the build error `e`: the three
`getBuildInfo` calls in order, each of which may throw, then `throw err`.
Gives the events and the error that leaves the handler. -/
def buildHandler (env : Env) (e : Err) : List BuildInfo → List Event × Err
  | [] => ([Event.rethrow e], e)
  | what :: rest =>
      match env.infoFails what with
      | some e1 => ([Event.exec (Op.getBuildInfo what)], e1)
      | none =>
          ((Event.exec (Op.getBuildInfo what)) :: (buildHandler env e rest).1,
           (buildHandler env e rest).2)

/-- The build properties in the order the handler prints them. -/
def buildInfos : List BuildInfo :=
  [.CL_PROGRAM_BUILD_STATUS, .CL_PROGRAM_BUILD_OPTIONS, .CL_PROGRAM_BUILD_LOG]

/-- What a throwing statement at `op` leaves behind: `program.build()` sits in
the inner `try` whose handler catches `cl::Error` only; every other statement
lets the error leave the block at once. -/
def thrownAt (env : Env) (op : Op) (e : Err) : List Event × Err :=
  match op, e with
  | .build, .clError code =>
      (Event.innerCatch (.clError code) :: (buildHandler env (.clError code) buildInfos).1,
       (buildHandler env (.clError code) buildInfos).2)
  | _, _ => ([], e)

/-- Run statements in order from position `pc`; the first statement that
throws, or has no defined result, ends the sequence. -/
def runOps (env : Env) : Nat → List Op → State → List Event → Run
  | _, [], s, tr => ⟨s, tr, none⟩
  | pc, op :: rest, s, tr =>
      match env.fails pc with
      | some e =>
          ⟨s, tr ++ Event.exec op :: (thrownAt env op e).1,
            some (Halt.thrown (thrownAt env op e).2)⟩
      | none =>
          match effect env op s with
          | some s1 => runOps env (pc + 1) rest s1 (tr ++ [Event.exec op])
          | none => ⟨s, tr ++ [Event.exec op], some Halt.undefined⟩

/-- Lines 30-50: context, queue, sources, program, device, build. -/
def setupOps : List Op :=
  [.GetContext, .CommandQueue, .AddSources, .Program, .getInfoDevices, .build]

/-- Lines 59-71: the image, the three histogram vectors, the five buffers and
the output vector. -/
def declOps : List Op :=
  [.imageInput,
   .vector .intenseHist .bin,
   .vector .cumulativeHist .bin,
   .vector .equalisedHist .bin,
   .Buffer .inputBuff .CL_MEM_READ_ONLY .imageSize,
   .Buffer .outputBuff .CL_MEM_READ_WRITE .imageSize,
   .Buffer .histBuff .CL_MEM_READ_WRITE .bin,
   .Buffer .cumulativeHistBuff .CL_MEM_READ_WRITE .bin,
   .Buffer .equalisedHistBuff .CL_MEM_READ_WRITE .bin,
   .vector .outputBuffer .imageSize]

/-- Lines 77-100: the four kernels with their arguments, the input window and
the platform listing. -/
def kernelOps : List Op :=
  [.Kernel .kerIntenseHist,
   .setArg .kerIntenseHist 0 .inputBuff,
   .setArg .kerIntenseHist 1 .histBuff,
   .Kernel .kerCumulativeHist,
   .setArg .kerCumulativeHist 0 .histBuff,
   .setArg .kerCumulativeHist 1 .cumulativeHistBuff,
   .Kernel .kerEqualisedHist,
   .setArg .kerEqualisedHist 0 .cumulativeHistBuff,
   .setArg .kerEqualisedHist 1 .equalisedHistBuff,
   .Kernel .kerBackProj,
   .setArg .kerBackProj 0 .equalisedHistBuff,
   .setArg .kerBackProj 1 .inputBuff,
   .setArg .kerBackProj 2 .outputBuff,
   .CImgDisplay .showInput,
   .ListPlatformsDevices]

/-- Lines 105-121: the intensity histogram stage and the cumulative stage up
to the read-back of the scan. -/
def scanOps : List Op :=
  [.enqueueWriteBuffer .inputBuff .imageSize .imageInput,
   .enqueueWriteBuffer .histBuff .bin .intenseHist,
   .enqueueNDRangeKernel .kerIntenseHist .imageSize,
   .enqueueReadBuffer .histBuff .bin .intenseHist,
   .GetFullProfilingInfo,
   .enqueueWriteBuffer .histBuff .bin .intenseHist,
   .enqueueWriteBuffer .cumulativeHistBuff .bin .cumulativeHist,
   .enqueueNDRangeKernel .kerCumulativeHist .bin,
   .enqueueReadBuffer .cumulativeHistBuff .bin .cumulativeHist]

/-- Lines 137-158: the equalisation stage, the back projection, the output
image and its window. -/
def mapOps : List Op :=
  [.GetFullProfilingInfo,
   .enqueueWriteBuffer .cumulativeHistBuff .bin .cumulativeHist,
   .enqueueNDRangeKernel .kerEqualisedHist .bin,
   .enqueueReadBuffer .equalisedHistBuff .bin .equalisedHist,
   .GetFullProfilingInfo,
   .enqueueWriteBuffer .equalisedHistBuff .bin .equalisedHist,
   .enqueueNDRangeKernel .kerBackProj .imageSize,
   .enqueueReadBuffer .outputBuff .outputBufferSize .outputBuffer,
   .GetFullProfilingInfo,
   .output_image,
   .CImgDisplay .showOutput]

/-- The statements of the `try` block, lines 30-158, in source order. -/
def mainOps : List Op :=
  setupOps ++ declOps ++ kernelOps ++ scanOps ++ [Op.repairLoop] ++ mapOps

/-- One pass over lines 30-158 from whatever the previous iteration left. -/
def attempt (env : Env) (s : State) : Run :=
  runOps env 0 mainOps s []

/-- The condition of the display-wait loop, line 161. -/
def waitCond (g : Signals) : Bool :=
  !g.showInput_is_closed && !g.showInput_is_keyESC &&
    !g.showOutput_is_closed && !g.showInput_is_keyESC

/-- The display-wait loop of lines 161-164: the number of the condition
evaluation at which the loop ends, `none` when it is still running after
`fuel` evaluations. -/
def waitLoop (signals : Nat → Signals) : Nat → Nat → Option Nat
  | 0, _ => none
  | fuel + 1, t =>
      if waitCond (signals t) then waitLoop signals fuel (t + 1) else some t

/-- How the `try` statement of one iteration of the outer loop ends. -/
inductive TryEnd
  | waitEnded
  | caught (e : Err)
  | undefined
  | waiting
deriving DecidableEq

/-- Result of the `try` statement of one iteration. -/
structure TryResult where
  state : State
  trace : List Event
  ending : TryEnd

/-- The `try` statement of lines 29-172: the attempt, then the display-wait
loop; an error thrown by the attempt is caught by a handler of lines
167-172, which prints it. -/
def tryStmt (env : Env) (fuel : Nat) (s : State) : TryResult :=
  match (attempt env s).halt with
  | some (Halt.thrown e) =>
      ⟨(attempt env s).state, (attempt env s).trace ++ [Event.outerCatch e], TryEnd.caught e⟩
  | some Halt.undefined =>
      ⟨(attempt env s).state, (attempt env s).trace, TryEnd.undefined⟩
  | none =>
      match waitLoop env.signals fuel 0 with
      | some _ => ⟨(attempt env s).state, (attempt env s).trace, TryEnd.waitEnded⟩
      | none => ⟨(attempt env s).state, (attempt env s).trace, TryEnd.waiting⟩

/-- An execution of `main`, observed for a bounded number of iterations of
the outer loop: whether `return 0` (line 174) was reached, and how the `try`
statement of each iteration entered so far ended. -/
structure MainRun where
  returned : Bool
  log : List TryEnd

/-- The outer loop `while (main)` of line 28.  `mainAddr` is the value the
function designator `main` converts to; the loop body runs while it is not
null, and `return 0` is reached when it is null.  The first numeric argument
bounds the iterations observed, `n` numbers the iteration, `envs n` is the
outside world during iteration `n`, and `fuel` bounds the evaluations of the
wait-loop condition observed in each iteration. -/
def mainLoop (mainAddr : Nat) (envs : Nat → Env) (fuel : Nat) :
    Nat → Nat → State → List TryEnd → MainRun
  | 0, _, _, log => ⟨decide (mainAddr = 0), log⟩
  | k + 1, n, s, log =>
      if mainAddr ≠ 0 then
        match (tryStmt (envs n) fuel s).ending with
        | TryEnd.waiting => ⟨false, log ++ [TryEnd.waiting]⟩
        | TryEnd.undefined => ⟨false, log ++ [TryEnd.undefined]⟩
        | e => mainLoop mainAddr envs fuel k (n + 1) (tryStmt (envs n) fuel s).state (log ++ [e])
      else ⟨true, log⟩

/-- The variables at the start of iteration `n + i` of the outer loop when
iteration `n` starts from `s`: each iteration starts from what the `try`
statement of the iteration before left. -/
def iterState (envs : Nat → Env) (fuel : Nat) : Nat → Nat → State → State
  | 0, _, s => s
  | i + 1, n, s => iterState envs fuel i (n + 1) (tryStmt (envs n) fuel s).state

/-! ## The Histogram Builder kernel -/

/-- Modelled from the spec: one work item of the Histogram Builder kernel
`intenseHist` (`kernels/my_kernels.cl` is not among the sources).  The work
item reads its sample and increments, by one atomic fetch-and-add, the counter
whose index is the sample value. -/
def intenseHistWorkItem (input : Mem) (hist : Mem) (id : Nat) : Mem :=
  fun v => if v = (input id).toNat then hist v + 1 else hist v

/-- Modelled from the spec: a dispatch of the Histogram Builder.  The schedule
lists the work items in the order in which their atomic increments take
effect. -/
def intenseHistDispatch (schedule : List Nat) (input hist : Mem) : Mem :=
  schedule.foldl (intenseHistWorkItem input) hist

/-! ## The composition of the four stages -/

/-- The input image on the device after the transfer of line 105. -/
def deviceInput (env : Env) : Mem :=
  writeCells env.file.size env.file.data (env.fresh .inputBuff)

/-- A histogram buffer after a vector of 256 zeros was transferred to it
(lines 106 and 118). -/
def zeroHist (env : Env) (b : BufId) : Mem :=
  writeCells bin (List.replicate bin 0) (env.fresh b)

/-- The Histogram Builder: what kernel `intenseHist`, run with one work item
per sample, leaves in its histogram argument. -/
def builder (env : Env) (input hist : Mem) : Mem :=
  env.kernel .kerIntenseHist env.file.size [input, hist] 1

/-- The Cumulative Scanner: what kernel `cumulativeHist`, run with 256 work
items, leaves in its cumulative-histogram argument. -/
def scan (env : Env) (hist cumulative : Mem) : Mem :=
  env.kernel .kerCumulativeHist bin [hist, cumulative] 1

/-- The Equalization Mapper: what kernel `equalisedHist`, run with 256 work
items, leaves in its lookup-table argument. -/
def mapper (env : Env) (cumulative lut : Mem) : Mem :=
  env.kernel .kerEqualisedHist bin [cumulative, lut] 1

/-- The Back-Projector: what kernel `backProj`, run with one work item per
sample, leaves in its output argument. -/
def backProj (env : Env) (lut input output : Mem) : Mem :=
  env.kernel .kerBackProj env.file.size [lut, input, output] 2

/-- The composition the specification names:
output = backProj(mapper(repair(scan(builder(input, zeros)))), input), with
the host transfers around the repair.  The scan starts from a cumulative
buffer of 256 zeros; the lookup-table and output buffers start with the
contents they were allocated with. -/
def pipeline (env : Env) : Option (List Int) :=
  match repair (readCells bin
      (scan env (builder env (deviceInput env) (zeroHist env .histBuff))
        (zeroHist env .cumulativeHistBuff)) (List.replicate bin 0)) with
  | none => none
  | some repaired =>
      some (readCells env.file.size
        (backProj env
          (mapper env
            (writeCells bin repaired
              (scan env (builder env (deviceInput env) (zeroHist env .histBuff))
                (zeroHist env .cumulativeHistBuff)))
            (env.fresh .equalisedHistBuff))
          (deviceInput env) (env.fresh .outputBuff))
        (List.replicate env.file.size 0))

/-- The kernel a trace event dispatches, if it is a dispatch. -/
def dispatchOf : Event → Option KernelId
  | .exec (.enqueueNDRangeKernel k _) => some k
  | _ => none

/-! ## Auxiliary definitions for the proofs -/

/-- A buffer after it was read into a 256-entry vector and the vector was
written back (lines 109/117 and 140/148). -/
def roundTrip (m : Mem) : Mem := writeCells bin (readCells bin m (List.replicate bin 0)) m

/-- The same outside world in which no statement throws. -/
def Env.quiet (env : Env) : Env := { env with fails := fun _ => none }

/-- The statements before the repair loop, lines 30-121. -/
def preOps : List Op := setupOps ++ declOps ++ kernelOps ++ scanOps

/-- The variables after line 121 of an attempt in which nothing threw. -/
def afterScan (env : Env) (s : State) : State :=
  { imageInput := env.file
    intenseHist := readCells bin (builder env (deviceInput env) (zeroHist env .histBuff))
      (List.replicate bin 0)
    cumulativeHist := readCells bin
      (scan env (roundTrip (builder env (deviceInput env) (zeroHist env .histBuff)))
        (zeroHist env .cumulativeHistBuff)) (List.replicate bin 0)
    equalisedHist := List.replicate bin 0
    outputBuffer := List.replicate env.file.size 0
    output_image := s.output_image
    inputBuff := deviceInput env
    outputBuff := env.fresh .outputBuff
    histBuff := env.kernel .kerCumulativeHist bin
      [roundTrip (builder env (deviceInput env) (zeroHist env .histBuff)),
       zeroHist env .cumulativeHistBuff] 0
    cumulativeHistBuff := scan env
      (roundTrip (builder env (deviceInput env) (zeroHist env .histBuff)))
      (zeroHist env .cumulativeHistBuff)
    equalisedHistBuff := env.fresh .equalisedHistBuff
    flag := fun b =>
      match b with
      | .inputBuff => .CL_MEM_READ_ONLY
      | _ => .CL_MEM_READ_WRITE
    bufSize := fun b =>
      match b with
      | .inputBuff => env.file.size
      | .outputBuff => env.file.size
      | _ => bin
    args := fun k j =>
      match k, j with
      | .kerIntenseHist, 0 => some .inputBuff
      | .kerIntenseHist, 1 => some .histBuff
      | .kerCumulativeHist, 0 => some .histBuff
      | .kerCumulativeHist, 1 => some .cumulativeHistBuff
      | .kerEqualisedHist, 0 => some .cumulativeHistBuff
      | .kerEqualisedHist, 1 => some .equalisedHistBuff
      | .kerBackProj, 0 => some .equalisedHistBuff
      | .kerBackProj, 1 => some .inputBuff
      | .kerBackProj, 2 => some .outputBuff
      | _, _ => none
    nargs := fun k =>
      match k with
      | .kerBackProj => 3
      | _ => 2 }

/-- A statement that, from a state with `P`, has a defined effect with `Q`. -/
def StepOk (env : Env) (op : Op) (P Q : State → Prop) : Prop :=
  ∀ s, P s → ∃ s1, effect env op s = some s1 ∧ Q s1

/-- A sequence that, from a state with `P`, never stops for lack of a defined
result and ends, when it runs to its end, in a state with `Q`. -/
def Safe (env : Env) (l : List Op) (P Q : State → Prop) : Prop :=
  ∀ pc s tr, P s → (runOps env pc l s tr).halt ≠ some Halt.undefined ∧
    ((runOps env pc l s tr).halt = none → Q (runOps env pc l s tr).state)

/-- The property the repair loop relies on: the cumulative vector has 256
entries. -/
def CumReady (s : State) : Prop := s.cumulativeHist.length = 256

/-! ## Concrete inputs -/

/-- An outside world in which nothing throws: a 2x2 image with the samples
0,0,3,3, zeroed fresh buffers, kernels that leave their arguments as they
are, and an input window that is closed at once. -/
def sampleEnv : Env :=
  { fails := fun _ => none
    infoFails := fun _ => none
    file := ⟨2, 2, 1, 1, [0, 0, 3, 3]⟩
    fresh := fun _ _ => 0
    kernel := fun _ _ argMems j => argMems.getD j (fun _ => 0)
    signals := fun _ => ⟨true, false, false, false⟩ }

/-- The outside world `sampleEnv` in which `program.build()` (statement 5)
throws `cl::Error` with code -11. -/
def buildFailure : Env :=
  { sampleEnv with fails := fun pc => if pc = 5 then some (Err.clError (-11)) else none }

/-- A state before the first iteration. -/
def State.blank : State :=
  { imageInput := CImg.empty
    intenseHist := []
    cumulativeHist := []
    equalisedHist := []
    outputBuffer := []
    output_image := CImg.empty
    inputBuff := fun _ => 0
    outputBuff := fun _ => 0
    histBuff := fun _ => 0
    cumulativeHistBuff := fun _ => 0
    equalisedHistBuff := fun _ => 0
    flag := fun _ => .CL_MEM_READ_WRITE
    bufSize := fun _ => 0
    args := fun _ _ => none
    nargs := fun _ => 0 }


/-! ## Lemmas on the repair loop -/

theorem repairStep_spec (v0 v : List Int) (i : Nat) (hi : 1 ≤ i) (hlt : i < v.length)
    (hlen : v.length = v0.length)
    (hlo : ∀ j, j < i → v[j]? = some (runningMax v0 j))
    (hhi : ∀ j, i ≤ j → v[j]? = v0[j]?) :
    ∃ w, repairStep v i = some w ∧ w.length = v0.length ∧
      (∀ j, j < i + 1 → w[j]? = some (runningMax v0 j)) ∧
      (∀ j, i + 1 ≤ j → w[j]? = v0[j]?) := by
  obtain ⟨p, rfl⟩ : ∃ p, i = p + 1 := ⟨i - 1, by omega⟩
  have hx : v[p + 1]? = some (v0.getD (p + 1) 0) := by
    rw [hhi (p + 1) (le_refl _)]
    have : p + 1 < v0.length := by omega
    simp [List.getD, List.getElem?_eq_getElem this]
  have hy : v[p]? = some (runningMax v0 p) := hlo p (by omega)
  unfold repairStep
  simp only [Nat.add_sub_cancel, hx, hy]
  by_cases hc : v0.getD (p + 1) 0 < runningMax v0 p
  · rw [if_pos hc]
    refine ⟨_, rfl, by simp [hlen], ?_, ?_⟩
    · intro j hj
      by_cases hjp : j = p + 1
      · subst hjp
        rw [List.getElem?_set_self hlt]
        simp only [runningMax]
        rw [max_eq_left (le_of_lt hc)]
      · rw [List.getElem?_set_ne (fun h => hjp h.symm)]
        exact hlo j (by omega)
    · intro j hj
      rw [List.getElem?_set_ne (by omega)]
      exact hhi j (by omega)
  · rw [if_neg hc]
    refine ⟨_, rfl, hlen, ?_, ?_⟩
    · intro j hj
      by_cases hjp : j = p + 1
      · subst hjp
        rw [hx]
        simp only [runningMax]
        rw [max_eq_right (not_lt.mp hc)]
      · exact hlo j (by omega)
    · intro j hj
      exact hhi j (by omega)

theorem repairLoop_spec (v0 : List Int) : ∀ (k i : Nat) (v : List Int), 1 ≤ i →
    i + k ≤ v0.length → v.length = v0.length →
    (∀ j, j < i → v[j]? = some (runningMax v0 j)) →
    (∀ j, i ≤ j → v[j]? = v0[j]?) →
    ∃ r, repairLoop k i v = some r ∧ r.length = v0.length ∧
      (∀ j, j < i + k → r[j]? = some (runningMax v0 j)) ∧
      (∀ j, i + k ≤ j → r[j]? = v0[j]?) := by
  intro k
  induction k with
  | zero =>
    intro i v _ _ hlen hlo hhi
    exact ⟨v, rfl, hlen, hlo, hhi⟩
  | succ k ih =>
    intro i v hi hk hlen hlo hhi
    obtain ⟨w, hs, hlen1, hlo1, hhi1⟩ :=
      repairStep_spec v0 v i hi (by omega) hlen hlo hhi
    obtain ⟨r, hr, hrl, hrlo, hrhi⟩ :=
      ih (i + 1) w (by omega) (by omega) hlen1 hlo1 hhi1
    refine ⟨r, ?_, hrl, ?_, ?_⟩
    · simp only [repairLoop, hs]
      exact hr
    · intro j hj
      exact hrlo j (by omega)
    · intro j hj
      exact hrhi j (by omega)

/-- On a vector of at least 256 entries the loop ends, keeps the length,
leaves the running maximum in each of the first 256 entries and does not touch
the others. -/
theorem repair_spec (v : List Int) (hlen : 256 ≤ v.length) :
    ∃ r, repair v = some r ∧ r.length = v.length ∧
      (∀ j, j < 256 → r[j]? = some (runningMax v j)) ∧
      (∀ j, 256 ≤ j → r[j]? = v[j]?) := by
  obtain ⟨r, hr, hrl, hrlo, hrhi⟩ := repairLoop_spec v 255 1 v (le_refl _) (by omega) rfl
    (by
      intro j hj
      obtain rfl : j = 0 := by omega
      have : 0 < v.length := by omega
      simp [runningMax, List.getD, List.getElem?_eq_getElem this])
    (fun _ _ => rfl)
  exact ⟨r, hr, hrl, fun j hj => hrlo j (by omega), fun j hj => hrhi j (by omega)⟩

theorem repairStep_length (v w : List Int) (i : Nat) (h : repairStep v i = some w) :
    i < v.length ∧ w.length = v.length := by
  unfold repairStep at h
  cases hx : v[i]? with
  | none => simp [hx] at h
  | some x =>
    have hi : i < v.length := by
      by_contra hcon
      rw [List.getElem?_eq_none (by omega)] at hx
      exact Option.noConfusion hx
    cases hy : v[i - 1]? with
    | none => simp [hx, hy] at h
    | some y =>
      simp only [hx, hy] at h
      split at h
      · injection h with h
        subst h
        exact ⟨hi, by simp⟩
      · injection h with h
        subst h
        exact ⟨hi, rfl⟩

theorem repairLoop_length : ∀ (k i : Nat) (v r : List Int), repairLoop k i v = some r →
    r.length = v.length ∧ (1 ≤ k → i + k ≤ v.length) := by
  intro k
  induction k with
  | zero =>
    intro i v r h
    simp only [repairLoop] at h
    injection h with h
    subst h
    exact ⟨rfl, fun h0 => absurd h0 (by omega)⟩
  | succ k ih =>
    intro i v r h
    simp only [repairLoop] at h
    cases hs : repairStep v i with
    | none => simp [hs] at h
    | some w =>
      simp only [hs] at h
      obtain ⟨hi, hw⟩ := repairStep_length v w i hs
      obtain ⟨hr, hk⟩ := ih (i + 1) w r h
      refine ⟨by omega, fun _ => ?_⟩
      by_cases hk0 : 1 ≤ k
      · have := hk hk0
        omega
      · omega

/-- The loop has a defined result only on vectors of at least 256 entries. -/
theorem repair_some_length (v r : List Int) (h : repair v = some r) :
    256 ≤ v.length ∧ r.length = v.length := by
  obtain ⟨hr, hk⟩ := repairLoop_length 255 1 v r h
  have := hk (by omega)
  exact ⟨by omega, hr⟩

theorem runningMax_ge (v : List Int) : ∀ i j, j ≤ i → v.getD j 0 ≤ runningMax v i := by
  intro i
  induction i with
  | zero =>
    intro j hj
    obtain rfl : j = 0 := by omega
    exact le_refl _
  | succ i ih =>
    intro j hj
    simp only [runningMax]
    by_cases hji : j = i + 1
    · subst hji
      exact le_max_right _ _
    · exact le_trans (ih j (by omega)) (le_max_left _ _)

theorem runningMax_attained (v : List Int) : ∀ i, ∃ j, j ≤ i ∧ runningMax v i = v.getD j 0 := by
  intro i
  induction i with
  | zero => exact ⟨0, le_refl _, rfl⟩
  | succ i ih =>
    obtain ⟨j, hj, hm⟩ := ih
    simp only [runningMax]
    by_cases hc : runningMax v i ≤ v.getD (i + 1) 0
    · exact ⟨i + 1, le_refl _, max_eq_right hc⟩
    · exact ⟨j, by omega, by rw [max_eq_left (le_of_lt (not_le.mp hc)), hm]⟩

theorem runningMax_mono (v : List Int) (i : Nat) : runningMax v i ≤ runningMax v (i + 1) := by
  simp only [runningMax]
  exact le_max_left _ _

theorem runningMax_of_sorted (v : List Int) (n : Nat)
    (h : ∀ i, 1 ≤ i → i < n → v.getD (i - 1) 0 ≤ v.getD i 0) :
    ∀ i, i < n → runningMax v i = v.getD i 0 := by
  intro i
  induction i with
  | zero => intro _; rfl
  | succ i ih =>
    intro hi
    simp only [runningMax]
    rw [ih (by omega)]
    exact max_eq_right (h (i + 1) (by omega) hi)

theorem getD_of_getElem? (r : List Int) (j : Nat) (x : Int) (h : r[j]? = some x) :
    r.getD j 0 = x := by
  simp [List.getD, h]

theorem getElem?_of_lt (v : List Int) (j : Nat) (h : j < v.length) :
    v[j]? = some (v.getD j 0) := by
  simp [List.getD, List.getElem?_eq_getElem h]

/-- A vector whose first 256 entries are non-decreasing is left as it is. -/
theorem repair_of_sorted (v : List Int) (hlen : 256 ≤ v.length)
    (h : ∀ i, 1 ≤ i → i < 256 → v.getD (i - 1) 0 ≤ v.getD i 0) : repair v = some v := by
  obtain ⟨r, hr, hrl, hrlo, hrhi⟩ := repair_spec v hlen
  rw [hr]
  congr 1
  apply List.ext_getElem?
  intro j
  by_cases hj : j < 256
  · rw [hrlo j hj, runningMax_of_sorted v 256 h j hj, getElem?_of_lt v j (by omega)]
  · exact hrhi j (by omega)

/-- The result of the loop is non-decreasing on its first 256 entries. -/
theorem repair_sorted (v r : List Int) (hr : repair v = some r) :
    ∀ i, 1 ≤ i → i < 256 → r.getD (i - 1) 0 ≤ r.getD i 0 := by
  obtain ⟨hlen, _⟩ := repair_some_length v r hr
  obtain ⟨r1, hr1, _, hrlo, _⟩ := repair_spec v hlen
  rw [hr] at hr1
  injection hr1 with hr1
  subst hr1
  intro i h1 h2
  obtain ⟨p, rfl⟩ : ∃ p, i = p + 1 := ⟨i - 1, by omega⟩
  rw [Nat.add_sub_cancel, getD_of_getElem? r p _ (hrlo p (by omega)),
    getD_of_getElem? r (p + 1) _ (hrlo (p + 1) h2)]
  exact runningMax_mono v p

theorem getD_le_of_forall (v : List Int) (b : Int) (h0 : 0 ≤ b) (h : ∀ x, x ∈ v → x ≤ b) :
    ∀ j, v.getD j 0 ≤ b := by
  intro j
  by_cases hj : j < v.length
  · have hx : v[j]? = some (v.get ⟨j, hj⟩) := by simp [List.getElem?_eq_getElem hj]
    rw [getD_of_getElem? v j _ hx]
    exact h _ (List.get_mem v j hj)
  · have hx : v[j]? = none := List.getElem?_eq_none (by omega)
    simp [List.getD, hx, h0]

theorem replicate_sorted (n : Nat) (x : Int) :
    ∀ i, 1 ≤ i → i < n → (List.replicate n x).getD (i - 1) 0 ≤ (List.replicate n x).getD i 0 := by
  intro i h1 h2
  have h : ∀ j, j < n → (List.replicate n x).getD j 0 = x := by
    intro j hj
    apply getD_of_getElem?
    rw [List.getElem?_replicate, if_pos hj]
  rw [h i h2, h (i - 1) (by omega)]

theorem corruptedScan_length : corruptedScan.length = 256 := by
  unfold corruptedScan
  rw [List.length_append, List.length_replicate]
  rfl

theorem flatScan_length : flatScan.length = 256 := by
  unfold flatScan
  rw [List.length_replicate]

theorem overshootScan_length : overshootScan.length = 256 := by
  unfold overshootScan
  rw [List.length_append, List.length_replicate]
  rfl

theorem corruptedScan_le : ∀ x, x ∈ corruptedScan → x ≤ 6 := by
  intro x hx
  unfold corruptedScan at hx
  rw [List.mem_append, List.mem_replicate] at hx
  rcases hx with h | ⟨_, h⟩
  · simp at h
    omega
  · omega

theorem overshootScan_le : ∀ x, x ∈ overshootScan → x ≤ 7 := by
  intro x hx
  unfold overshootScan at hx
  rw [List.mem_append, List.mem_replicate] at hx
  rcases hx with ⟨_, h⟩ | h
  · omega
  · simp at h
    omega

/-! ## The repair loop: claims C1 to C4 -/

/-- C1: on every 256-entry sequence read back from the scan kernel the repair
loop ends, and the repaired sequence is non-decreasing: for every i with
1 <= i <= 255, entry i is at least entry i-1. -/
theorem C1_repair_nondecreasing (cumulativeHist : List Int)
    (hlen : cumulativeHist.length = 256) :
    ∃ r, repair cumulativeHist = some r ∧ r.length = 256 ∧
      ∀ i, 1 ≤ i → i ≤ 255 → r.getD (i - 1) 0 ≤ r.getD i 0 := by
  obtain ⟨r, hr, hrl, _, _⟩ := repair_spec cumulativeHist (by omega)
  exact ⟨r, hr, by omega, fun i h1 h2 => repair_sorted cumulativeHist r hr i h1 (by omega)⟩

theorem C1_repair_nondecreasing_witness :
    ∃ r, repair corruptedScan = some r ∧ r.length = 256 ∧
      ∀ i, 1 ≤ i → i ≤ 255 → r.getD (i - 1) 0 ≤ r.getD i 0 :=
  C1_repair_nondecreasing corruptedScan corruptedScan_length

/-- C2: the host-side repair is the in-order clamp of each entry to its
already-repaired predecessor: on every sequence the loop is handed (256
entries) it ends, and every repaired entry i is the maximum of the input
entries 0..i, hence never below input entry i; entry 0 and the length are
unchanged; in particular the corrupted run 1,1,0,5,4,6 at the head of the
sequence repairs to 1,1,1,5,5,6. -/
theorem C2_repair_running_max (v : List Int) (hlen : v.length = 256) :
    ∃ r, repair v = some r ∧ r.length = v.length ∧
      (∀ i, 1 ≤ i → i < 256 → r.getD i 0 = max (v.getD i 0) (r.getD (i - 1) 0)) ∧
      (∀ i, i < 256 → (∀ j, j ≤ i → v.getD j 0 ≤ r.getD i 0) ∧
        ∃ j, j ≤ i ∧ r.getD i 0 = v.getD j 0) ∧
      (∀ i, i < 256 → v.getD i 0 ≤ r.getD i 0) ∧
      r.getD 0 0 = v.getD 0 0 ∧
      (∀ t, v = [1, 1, 0, 5, 4, 6] ++ t → r.take 6 = [1, 1, 1, 5, 5, 6]) := by
  obtain ⟨r, hr, hrl, hrlo, _⟩ := repair_spec v (by omega)
  have hget : ∀ j, j < 256 → r.getD j 0 = runningMax v j :=
    fun j hj => getD_of_getElem? r j _ (hrlo j hj)
  refine ⟨r, hr, hrl, ?_, ?_, ?_, ?_, ?_⟩
  · intro i h1 h2
    obtain ⟨p, rfl⟩ : ∃ p, i = p + 1 := ⟨i - 1, by omega⟩
    rw [Nat.add_sub_cancel, hget (p + 1) h2, hget p (by omega), max_comm]
    rfl
  · intro i hi
    rw [hget i hi]
    exact ⟨fun j hj => runningMax_ge v i j hj, runningMax_attained v i⟩
  · intro i hi
    rw [hget i hi]
    exact runningMax_ge v i i (le_refl _)
  · rw [hget 0 (by omega)]
    rfl
  · intro t ht
    have h6 : ∀ j, j < 6 → r[j]? = some (runningMax ([1, 1, 0, 5, 4, 6] ++ t) j) := by
      intro j hj
      rw [← ht]
      exact hrlo j (by omega)
    have hl : (r.take 6).length = 6 := by
      rw [List.length_take]
      omega
    apply List.ext_getElem?
    intro j
    by_cases hj : j < 6
    · rw [List.getElem?_take_of_lt hj, h6 j hj]
      interval_cases j <;> simp [runningMax]
    · rw [List.getElem?_eq_none (by omega), List.getElem?_eq_none (by simp; omega)]

theorem C2_repair_running_max_witness :
    ∃ r, repair corruptedScan = some r ∧ r.length = corruptedScan.length ∧
      (∀ i, 1 ≤ i → i < 256 → r.getD i 0 = max (corruptedScan.getD i 0) (r.getD (i - 1) 0)) ∧
      (∀ i, i < 256 → (∀ j, j ≤ i → corruptedScan.getD j 0 ≤ r.getD i 0) ∧
        ∃ j, j ≤ i ∧ r.getD i 0 = corruptedScan.getD j 0) ∧
      (∀ i, i < 256 → corruptedScan.getD i 0 ≤ r.getD i 0) ∧
      r.getD 0 0 = corruptedScan.getD 0 0 ∧
      (∀ t, corruptedScan = [1, 1, 0, 5, 4, 6] ++ t → r.take 6 = [1, 1, 1, 5, 5, 6]) :=
  C2_repair_running_max corruptedScan corruptedScan_length

/-- C3: repairing a sequence whose entries are already non-decreasing leaves
every entry unchanged, and the repair is idempotent: for every input sequence,
running the loop on its own result gives that result again (and on a 256-entry
sequence the loop does give a result). -/
theorem C3_repair_idempotent (v : List Int) :
    (v.length = 256 → (∀ i, 1 ≤ i → i ≤ 255 → v.getD (i - 1) 0 ≤ v.getD i 0) →
      repair v = some v) ∧
    (repair v).bind repair = repair v ∧
    (v.length = 256 → ∃ r, repair v = some r ∧ repair r = some r) := by
  have hidem : ∀ r, repair v = some r → repair r = some r := by
    intro r hr
    obtain ⟨hlen, hrl⟩ := repair_some_length v r hr
    exact repair_of_sorted r (by omega) (repair_sorted v r hr)
  refine ⟨?_, ?_, ?_⟩
  · intro hlen h
    exact repair_of_sorted v (by omega) (fun i h1 h2 => h i h1 (by omega))
  · cases hr : repair v with
    | none => rfl
    | some r => exact hidem r hr
  · intro hlen
    obtain ⟨r, hr, _⟩ := repair_spec v (by omega)
    exact ⟨r, hr, hidem r hr⟩

theorem C3_repair_idempotent_witness :
    repair flatScan = some flatScan ∧
      ∃ r, repair corruptedScan = some r ∧ repair r = some r :=
  ⟨(C3_repair_idempotent flatScan).1 flatScan_length
      (fun i h1 h2 => replicate_sorted 256 3 i h1 (by omega)),
    (C3_repair_idempotent corruptedScan).2.2 corruptedScan_length⟩

/-- C4, as stated, fails: a scan output whose final entry is N = 5 but whose
entry 254 is 7 has final entry 7 after the repair loop. -/
theorem C4_final_entry_counterexample :
    overshootScan.length = 256 ∧ overshootScan.getD 255 0 = 5 ∧
      ∃ r, repair overshootScan = some r ∧ r.getD 255 0 = 7 := by
  have hlen : overshootScan.length = 256 := overshootScan_length
  obtain ⟨r, hr, _, hrlo, _⟩ := repair_spec overshootScan (by omega)
  refine ⟨hlen, by rfl, r, hr, ?_⟩
  rw [getD_of_getElem? r 255 _ (hrlo 255 (by omega))]
  obtain ⟨j, _, hm⟩ := runningMax_attained overshootScan 255
  apply le_antisymm
  · rw [hm]
    exact getD_le_of_forall _ _ (by omega) overshootScan_le j
  · have h254 : overshootScan.getD 254 0 = 7 := by rfl
    rw [← h254]
    exact runningMax_ge overshootScan 255 254 (by omega)

/-- C4 (amended): for every scan output whose final entry cumulativeHist[255]
equals N and none of whose earlier entries exceeds N, the final entry after
the repair loop is still N. -/
theorem C4_final_entry_kept (cumulativeHist : List Int) (N : Int)
    (hlen : cumulativeHist.length = 256) (hN : cumulativeHist.getD 255 0 = N)
    (hle : ∀ i, i < 255 → cumulativeHist.getD i 0 ≤ N) :
    ∃ r, repair cumulativeHist = some r ∧ r.length = 256 ∧ r.getD 255 0 = N := by
  obtain ⟨r, hr, hrl, hrlo, _⟩ := repair_spec cumulativeHist (by omega)
  refine ⟨r, hr, by omega, ?_⟩
  rw [getD_of_getElem? r 255 _ (hrlo 255 (by omega))]
  obtain ⟨j, hj, hm⟩ := runningMax_attained cumulativeHist 255
  apply le_antisymm
  · rw [hm]
    by_cases hj5 : j = 255
    · rw [hj5, hN]
    · exact hle j (by omega)
  · rw [← hN]
    exact runningMax_ge cumulativeHist 255 255 (le_refl _)

theorem C4_final_entry_kept_witness :
    ∃ r, repair corruptedScan = some r ∧ r.length = 256 ∧ r.getD 255 0 = 6 :=
  C4_final_entry_kept corruptedScan 6 corruptedScan_length (by rfl)
    (fun i _ => getD_le_of_forall _ _ (by omega) corruptedScan_le i)

/-! ## Lemmas on running statements -/

theorem runOps_append (env : Env) : ∀ (l1 l2 : List Op) (pc : Nat) (s : State) (tr : List Event),
    runOps env pc (l1 ++ l2) s tr =
      match (runOps env pc l1 s tr).halt with
      | none => runOps env (pc + l1.length) l2 (runOps env pc l1 s tr).state
          (runOps env pc l1 s tr).trace
      | some _ => runOps env pc l1 s tr := by
  intro l1
  induction l1 with
  | nil => intro l2 pc s tr; simp [runOps]
  | cons op rest ih =>
    intro l2 pc s tr
    simp only [List.cons_append, runOps, List.length_cons]
    cases hf : env.fails pc with
    | some e => simp
    | none =>
      cases he : effect env op s with
      | none => simp
      | some s1 =>
        simp only []
        have h := ih l2 (pc + 1) s1 (tr ++ [Event.exec op])
        have hpc : pc + 1 + rest.length = pc + (rest.length + 1) := by omega
        rw [hpc] at h
        exact h

/-- A sequence that ran to its end started every statement once, in order, and
none of its statements threw. -/
theorem runOps_completed (env : Env) : ∀ (l : List Op) (pc : Nat) (s : State) (tr : List Event),
    (runOps env pc l s tr).halt = none →
      (runOps env pc l s tr).trace = tr ++ l.map Event.exec ∧
      ∀ j, j < l.length → env.fails (pc + j) = none := by
  intro l
  induction l with
  | nil => intro pc s tr _; simp [runOps]
  | cons op rest ih =>
    intro pc s tr h
    simp only [runOps] at h ⊢
    cases hf : env.fails pc with
    | some e => simp [hf] at h
    | none =>
      cases he : effect env op s with
      | none => simp [hf, he] at h
      | some s1 =>
        simp only [hf, he] at h ⊢
        obtain ⟨ht, hj⟩ := ih (pc + 1) s1 (tr ++ [Event.exec op]) h
        refine ⟨by simp [ht], ?_⟩
        intro j hjl
        cases j with
        | zero => simpa using hf
        | succ j =>
          have := hj j (by simpa using hjl)
          rw [← this]
          congr 1
          omega

/-- The first statement that throws ends the sequence: the statements before
it ran, it was started, and nothing after it was. -/
theorem runOps_first_throw (env : Env) : ∀ (l : List Op) (pc : Nat) (s : State)
    (tr : List Event) (k : Nat) (op : Op) (e : Err),
    l[k]? = some op → env.fails (pc + k) = some e →
    (∀ j, j < k → env.fails (pc + j) = none) →
    (runOps env pc l s tr).halt ≠ some Halt.undefined →
      (runOps env pc l s tr).halt = some (Halt.thrown (thrownAt env op e).2) ∧
      (runOps env pc l s tr).trace =
        tr ++ (l.take (k + 1)).map Event.exec ++ (thrownAt env op e).1 := by
  intro l
  induction l with
  | nil => intro pc s tr k op e hk; simp at hk
  | cons o rest ih =>
    intro pc s tr k op e hk hf hbefore hdef
    cases k with
    | zero =>
      simp only [List.getElem?_cons_zero, Option.some.injEq] at hk
      subst hk
      simp only [Nat.add_zero] at hf
      simp [runOps, hf]
    | succ k =>
      simp only [List.getElem?_cons_succ] at hk
      have h0 : env.fails pc = none := by simpa using hbefore 0 (by omega)
      simp only [runOps, h0] at hdef ⊢
      cases he : effect env o s with
      | none => simp [he] at hdef
      | some s1 =>
        simp only [he] at hdef ⊢
        have hf1 : env.fails (pc + 1 + k) = some e := by
          rw [← hf]; congr 1; omega
        have hb1 : ∀ j, j < k → env.fails (pc + 1 + j) = none := by
          intro j hj
          rw [← hbefore (j + 1) (by omega)]; congr 1; omega
        obtain ⟨h1, h2⟩ := ih (pc + 1) s1 (tr ++ [Event.exec o]) k op e hk hf1 hb1 hdef
        exact ⟨h1, by simp [h2]⟩

theorem Safe_of_forall (env : Env) (I : State → Prop) : ∀ (l : List Op),
    (∀ op, op ∈ l → StepOk env op I I) → Safe env l I I := by
  intro l
  induction l with
  | nil => intro _ pc s tr hs; simp [runOps, hs]
  | cons o rest ih =>
    intro h pc s tr hs
    simp only [runOps]
    cases hf : env.fails pc with
    | some e => simp
    | none =>
      obtain ⟨s1, he, hs1⟩ := h o (List.mem_cons_self _ _) s hs
      simp only [he]
      exact ih (fun op hop => h op (List.mem_cons_of_mem _ hop)) (pc + 1) s1 _ hs1

theorem Safe_append (env : Env) (l1 l2 : List Op) (P Q R : State → Prop)
    (h1 : Safe env l1 P Q) (h2 : Safe env l2 Q R) : Safe env (l1 ++ l2) P R := by
  intro pc s tr hs
  rw [runOps_append]
  obtain ⟨hd, hq⟩ := h1 pc s tr hs
  cases hh : (runOps env pc l1 s tr).halt with
  | none =>
    simp only []
    exact h2 _ _ _ (hq hh)
  | some x =>
    simp only []
    rw [hh]
    refine ⟨?_, fun hc => by simp at hc⟩
    intro hc
    exact hd (hh.trans hc)


theorem Safe_cons (env : Env) (op : Op) (rest : List Op) (P Q R : State → Prop)
    (h1 : StepOk env op P Q) (h2 : Safe env rest Q R) : Safe env (op :: rest) P R := by
  intro pc s tr hs
  simp only [runOps]
  cases hf : env.fails pc with
  | some e => simp
  | none =>
    obtain ⟨s1, he, hs1⟩ := h1 s hs
    simp only [he]
    exact h2 (pc + 1) s1 _ hs1

theorem setCells_cumulativeHist (s : State) (b : BufId) (m : Mem) :
    (s.setCells b m).cumulativeHist = s.cumulativeHist := by
  cases b <;> rfl

theorem writeBack_cumulativeHist (out : Nat → Mem) : ∀ (bs : List BufId) (j : Nat) (s : State),
    (writeBack out j bs s).cumulativeHist = s.cumulativeHist := by
  intro bs
  induction bs with
  | nil => intro j s; rfl
  | cons b bs ih =>
    intro j s
    simp only [writeBack]
    rw [ih]
    cases s.flag b
    · rfl
    · exact setCells_cumulativeHist s b _

theorem stepOk_any (env : Env) (op : Op) (h : op ≠ Op.repairLoop) :
    StepOk env op (fun _ => True) (fun _ => True) := by
  intro s _
  cases op <;> first | exact ⟨_, rfl, trivial⟩ | exact absurd rfl h

theorem stepOk_repairLoop (env : Env) : StepOk env Op.repairLoop CumReady CumReady := by
  intro s hs
  obtain ⟨r, hr, hrl, _, _⟩ := repair_spec s.cumulativeHist (le_of_eq hs.symm)
  refine ⟨{ s with cumulativeHist := r }, ?_, ?_⟩
  · simp only [effect, hr]
  · exact hrl.trans hs

theorem stepOk_keep (env : Env) : ∀ op, op ∈ kernelOps ++ scanOps ++ mapOps →
    StepOk env op CumReady CumReady := by
  simp only [kernelOps, scanOps, mapOps, List.cons_append, List.nil_append,
    List.forall_mem_cons]
  repeat' apply And.intro
  all_goals first
    | (intro s hs
       refine ⟨_, rfl, ?_⟩
       simp only [CumReady, State.setHostData, State.hostData, State.sizeOf, readCells,
         setCells_cumulativeHist, writeBack_cumulativeHist, bin, List.length_append,
         List.length_map, List.length_range, List.length_drop] at hs ⊢
       omega)
    | (intro op hop; simp at hop)

theorem attempt_defined (env : Env) (s : State) :
    (attempt env s).halt ≠ some Halt.undefined := by
  have h1 : Safe env setupOps (fun _ => True) (fun _ => True) :=
    Safe_of_forall env _ _ (fun op hop => stepOk_any env op (by
      intro h; subst h; simp [setupOps] at hop))
  have h2 : Safe env declOps (fun _ => True) CumReady := by
    apply Safe_cons env _ _ _ (fun _ => True) _ (stepOk_any env _ (by simp))
    apply Safe_cons env _ _ _ (fun _ => True) _ (stepOk_any env _ (by simp))
    apply Safe_cons env _ _ _ CumReady _
    · intro s _
      exact ⟨_, rfl, by simp only [CumReady, State.setHostData, State.sizeOf, List.length_replicate, bin]⟩
    · apply Safe_of_forall
      simp only [List.forall_mem_cons]
      repeat' apply And.intro
      all_goals first
        | (intro s hs
           refine ⟨_, rfl, ?_⟩
           simp only [CumReady, State.setHostData, setCells_cumulativeHist] at hs ⊢
           exact hs)
        | (intro op hop; simp at hop)
  have h3 : Safe env (kernelOps ++ scanOps) CumReady CumReady :=
    Safe_of_forall env _ _ (fun op hop => stepOk_keep env op (by
      simp only [List.mem_append] at hop ⊢; tauto))
  have h4 : Safe env [Op.repairLoop] CumReady CumReady :=
    Safe_of_forall env _ _ (fun op hop => by
      simp only [List.mem_singleton] at hop
      subst hop
      exact stepOk_repairLoop env)
  have h5 : Safe env mapOps CumReady CumReady :=
    Safe_of_forall env _ _ (fun op hop => stepOk_keep env op (by
      simp only [List.mem_append] at hop ⊢; tauto))
  have hall : Safe env mainOps (fun _ => True) CumReady := by
    have e : mainOps = setupOps ++ (declOps ++ ((kernelOps ++ scanOps) ++ ([Op.repairLoop] ++ mapOps))) := by
      simp only [mainOps, List.append_assoc]
    rw [e]
    exact Safe_append env _ _ _ _ _ h1 (Safe_append env _ _ _ _ _ h2
      (Safe_append env _ _ _ _ _ h3 (Safe_append env _ _ _ _ _ h4 h5)))
  exact (hall 0 s [] trivial).1


theorem effect_quiet (env : Env) (op : Op) (s : State) :
    effect env.quiet op s = effect env op s := by
  cases op <;> rfl

theorem runOps_quiet (env : Env) : ∀ (l : List Op) (pc : Nat) (s : State) (tr : List Event),
    (∀ j, j < l.length → env.fails (pc + j) = none) →
    runOps env pc l s tr = runOps env.quiet pc l s tr := by
  intro l
  induction l with
  | nil => intro pc s tr _; rfl
  | cons op rest ih =>
    intro pc s tr h
    have h0 : env.fails pc = none := by simpa using h 0 (by simp)
    have hq : env.quiet.fails pc = none := rfl
    simp only [runOps, h0, hq, effect_quiet]
    cases he : effect env op s with
    | none => rfl
    | some s1 =>
      simp only []
      apply ih
      intro j hj
      rw [← h (j + 1) (by simpa using hj)]
      congr 1
      omega

theorem writeCells_readCells (n : Nat) (m : Mem) (d : List Int) :
    writeCells n (readCells n m d) m = m := by
  funext i
  unfold writeCells readCells
  by_cases hi : i < n
  · rw [if_pos hi]
    apply getD_of_getElem?
    rw [List.getElem?_append_left (by simpa using hi)]
    simp [hi]
  · rw [if_neg hi]

theorem roundTrip_eq (m : Mem) : roundTrip m = m := writeCells_readCells _ _ _

theorem State.eq_of_fields (s t : State) (h1 : s.imageInput = t.imageInput)
    (h2 : s.intenseHist = t.intenseHist) (h3 : s.cumulativeHist = t.cumulativeHist)
    (h4 : s.equalisedHist = t.equalisedHist) (h5 : s.outputBuffer = t.outputBuffer)
    (h6 : s.output_image = t.output_image) (h7 : s.inputBuff = t.inputBuff)
    (h8 : s.outputBuff = t.outputBuff) (h9 : s.histBuff = t.histBuff)
    (h10 : s.cumulativeHistBuff = t.cumulativeHistBuff)
    (h11 : s.equalisedHistBuff = t.equalisedHistBuff) (h12 : s.flag = t.flag)
    (h13 : s.bufSize = t.bufSize) (h14 : s.args = t.args) (h15 : s.nargs = t.nargs) :
    s = t := by
  cases s
  cases t
  simp only [State.mk.injEq]
  exact ⟨h1, h2, h3, h4, h5, h6, h7, h8, h9, h10, h11, h12, h13, h14, h15⟩

set_option maxRecDepth 100000 in
theorem pre_state (env : Env) (s : State) :
    (runOps env.quiet 0 preOps s []).state = afterScan env s := by
  apply State.eq_of_fields
  · rfl
  · rfl
  · rfl
  · rfl
  · rfl
  · rfl
  · rfl
  · rfl
  · rfl
  · rfl
  · rfl
  · funext b; cases b <;> rfl
  · funext b; cases b <;> rfl
  · funext k j
    cases k <;> (
      match j with
      | 0 => rfl
      | 1 => rfl
      | 2 => rfl
      | n + 3 => rfl)
  · funext k; cases k <;> rfl

set_option maxRecDepth 100000 in
theorem post_halt (env : Env) (s : State) (r : List Int) (tr : List Event) :
    (runOps env.quiet 41 mapOps { afterScan env s with cumulativeHist := r } tr).halt = none := rfl

set_option maxRecDepth 100000 in
theorem post_out (env : Env) (s : State) (r : List Int) (tr : List Event) :
    (runOps env.quiet 41 mapOps { afterScan env s with cumulativeHist := r } tr).state.outputBuffer =
      readCells (List.replicate env.file.size (0 : Int)).length
        (backProj env
          (roundTrip (mapper env
            (writeCells bin r
              (scan env (roundTrip (builder env (deviceInput env) (zeroHist env .histBuff)))
                (zeroHist env .cumulativeHistBuff)))
            (env.fresh .equalisedHistBuff)))
          (deviceInput env) (env.fresh .outputBuff))
        (List.replicate env.file.size 0) := rfl


theorem readCells_length (n : Nat) (m : Mem) (d : List Int) :
    (readCells n m d).length = n + (d.length - n) := by
  simp [readCells]

theorem mainOps_split : mainOps = preOps ++ (Op.repairLoop :: mapOps) := by
  simp only [mainOps, preOps, List.append_assoc, List.singleton_append]

set_option maxRecDepth 100000 in
theorem pre_halt (env : Env) (s : State) :
    (runOps env.quiet 0 preOps s []).halt = none := rfl

set_option maxRecDepth 100000 in
theorem pre_trace (env : Env) (s : State) :
    (runOps env.quiet 0 preOps s []).trace = preOps.map Event.exec := rfl

/-- With no statement throwing, the attempt reaches the repair loop in the
state `afterScan`, the repair loop has a result, and the attempt goes on from
there. -/
theorem quiet_run (env : Env) (s : State) :
    ∃ rep, repair (afterScan env s).cumulativeHist = some rep ∧
      runOps env.quiet 0 mainOps s [] =
        runOps env.quiet 41 mapOps { afterScan env s with cumulativeHist := rep }
          (preOps.map Event.exec ++ [Event.exec Op.repairLoop]) := by
  have hlen : 256 ≤ (afterScan env s).cumulativeHist.length := by
    show 256 ≤ (readCells bin _ (List.replicate bin 0)).length
    rw [readCells_length, List.length_replicate]
    simp [bin]
  obtain ⟨rep, hrep, _⟩ := repair_spec _ hlen
  refine ⟨rep, hrep, ?_⟩
  rw [mainOps_split, runOps_append, pre_halt]
  simp only []
  rw [pre_state, pre_trace]
  have h40 : 0 + preOps.length = 40 := rfl
  rw [h40]
  have hq : env.quiet.fails 40 = none := rfl
  simp only [runOps, hq, effect, hrep]

theorem attempt_quiet (env : Env) (s : State)
    (h : ∀ j, j < mainOps.length → env.fails j = none) :
    attempt env s = runOps env.quiet 0 mainOps s [] :=
  runOps_quiet env mainOps 0 s [] (fun j hj => by rw [Nat.zero_add]; exact h j hj)

/-- An attempt in which no statement throws runs to its end. -/
theorem attempt_completes (env : Env) (s : State)
    (h : ∀ j, j < mainOps.length → env.fails j = none) : (attempt env s).halt = none := by
  obtain ⟨rep, _, hrun⟩ := quiet_run env s
  rw [attempt_quiet env s h, hrun]
  exact post_halt env s rep _

theorem attempt_no_throw (env : Env) (s : State) (h : (attempt env s).halt = none) :
    ∀ j, j < mainOps.length → env.fails j = none := by
  intro j hj
  have := (runOps_completed env mainOps 0 s [] h).2 j hj
  rwa [Nat.zero_add] at this

set_option maxRecDepth 100000 in
theorem post_fields (env : Env) (s : State) (r : List Int) (tr : List Event) :
    (runOps env.quiet 41 mapOps { afterScan env s with cumulativeHist := r } tr).state.imageInput
      = env.file ∧
    (runOps env.quiet 41 mapOps { afterScan env s with cumulativeHist := r } tr).state.output_image
      = CImg.ofValues
          (runOps env.quiet 41 mapOps { afterScan env s with cumulativeHist := r } tr).state.outputBuffer
          env.file.width env.file.height env.file.depth env.file.spectrum ∧
    (runOps env.quiet 41 mapOps { afterScan env s with cumulativeHist := r } tr).state.bufSize
      .outputBuff = env.file.size ∧
    (runOps env.quiet 41 mapOps { afterScan env s with cumulativeHist := r } tr).state.bufSize
      .inputBuff = env.file.size :=
  ⟨rfl, rfl, rfl, rfl⟩

set_option maxRecDepth 100000 in
/-- C5: treating the four kernels as arbitrary functions of their argument
buffers, every completed run computes
output = backProj(mapper(repair(scan(builder(input, zeros)))), input): every
statement of the attempt runs once in source order, so each stage is
dispatched exactly once in the order Builder, Scanner, Mapper, Back-Projector;
the Builder starts from a histogram of 256 zeros; the repair runs exactly once,
between the read-back of the scan and the write of the Mapper's input; and the
Mapper receives the repaired cumulative histogram. -/
theorem C5_pipeline_composition (env : Env) (s : State) (h : (attempt env s).halt = none) :
    pipeline env = some (attempt env s).state.outputBuffer ∧
    (attempt env s).trace = mainOps.map Event.exec ∧
    (attempt env s).trace.filterMap dispatchOf =
      [.kerIntenseHist, .kerCumulativeHist, .kerEqualisedHist, .kerBackProj] ∧
    (∀ i, i < bin → zeroHist env .histBuff i = 0) ∧
    ∃ before after,
      (attempt env s).trace =
        before ++
          [Event.exec (.enqueueReadBuffer .cumulativeHistBuff .bin .cumulativeHist),
           Event.exec .repairLoop,
           Event.exec .GetFullProfilingInfo,
           Event.exec (.enqueueWriteBuffer .cumulativeHistBuff .bin .cumulativeHist),
           Event.exec (.enqueueNDRangeKernel .kerEqualisedHist .bin)] ++ after ∧
      Event.exec .repairLoop ∉ before ∧ Event.exec .repairLoop ∉ after := by
  have htrace : (attempt env s).trace = mainOps.map Event.exec := by
    have := (runOps_completed env mainOps 0 s [] h).1
    simpa using this
  refine ⟨?_, htrace, ?_, ?_, ?_⟩
  · obtain ⟨rep, hrep, hrun⟩ := quiet_run env s
    rw [attempt_quiet env s (attempt_no_throw env s h), hrun, post_out]
    have hrep2 : repair (readCells bin
        (scan env (builder env (deviceInput env) (zeroHist env .histBuff))
          (zeroHist env .cumulativeHistBuff)) (List.replicate bin 0)) = some rep := by
      have h0 : (afterScan env s).cumulativeHist = readCells bin
          (scan env (roundTrip (builder env (deviceInput env) (zeroHist env .histBuff)))
            (zeroHist env .cumulativeHistBuff)) (List.replicate bin 0) := rfl
      rw [h0, roundTrip_eq] at hrep
      exact hrep
    simp only [pipeline, hrep2, roundTrip_eq, List.length_replicate]
  · rw [htrace]
    rfl
  · intro i hi
    have hi2 : i < (List.replicate bin (0 : Int)).length := by
      rw [List.length_replicate]; exact hi
    simp only [zeroHist, writeCells, if_pos hi]
    apply getD_of_getElem?
    rw [List.getElem?_replicate, if_pos hi]
  · refine ⟨(mainOps.take 39).map Event.exec, (mainOps.drop 44).map Event.exec, ?_, ?_, ?_⟩
    · rw [htrace]; rfl
    · decide
    · decide

theorem C5_pipeline_composition_witness :
    pipeline sampleEnv = some (attempt sampleEnv State.blank).state.outputBuffer ∧
    (attempt sampleEnv State.blank).trace = mainOps.map Event.exec ∧
    (attempt sampleEnv State.blank).trace.filterMap dispatchOf =
      [.kerIntenseHist, .kerCumulativeHist, .kerEqualisedHist, .kerBackProj] ∧
    (∀ i, i < bin → zeroHist sampleEnv .histBuff i = 0) ∧
    ∃ before after,
      (attempt sampleEnv State.blank).trace =
        before ++
          [Event.exec (.enqueueReadBuffer .cumulativeHistBuff .bin .cumulativeHist),
           Event.exec .repairLoop,
           Event.exec .GetFullProfilingInfo,
           Event.exec (.enqueueWriteBuffer .cumulativeHistBuff .bin .cumulativeHist),
           Event.exec (.enqueueNDRangeKernel .kerEqualisedHist .bin)] ++ after ∧
      Event.exec .repairLoop ∉ before ∧ Event.exec .repairLoop ∉ after :=
  C5_pipeline_composition sampleEnv State.blank
    (attempt_completes sampleEnv State.blank (fun _ _ => rfl))

/-- C6: for every input image, the output image of a completed run has the
width, height, depth and channel count of the input; it is built from an
output vector of exactly width*height*depth*spectrum samples, read from a
device buffer allocated with that size; and the input image is, at the end of
the run, the image that was loaded. -/
theorem C6_output_shape (env : Env) (s : State) (hvalid : env.file.Valid)
    (h : (attempt env s).halt = none) :
    (attempt env s).state.output_image.width = env.file.width ∧
    (attempt env s).state.output_image.height = env.file.height ∧
    (attempt env s).state.output_image.depth = env.file.depth ∧
    (attempt env s).state.output_image.spectrum = env.file.spectrum ∧
    (attempt env s).state.output_image =
      CImg.ofValues (attempt env s).state.outputBuffer env.file.width env.file.height
        env.file.depth env.file.spectrum ∧
    (attempt env s).state.outputBuffer.length =
      env.file.width * env.file.height * env.file.depth * env.file.spectrum ∧
    (attempt env s).state.bufSize .outputBuff =
      env.file.width * env.file.height * env.file.depth * env.file.spectrum ∧
    (attempt env s).state.imageInput = env.file := by
  obtain ⟨rep, _, hrun⟩ := quiet_run env s
  have hatt := attempt_quiet env s (attempt_no_throw env s h)
  obtain ⟨f1, f2, f3, _⟩ := post_fields env s rep
    (preOps.map Event.exec ++ [Event.exec Op.repairLoop])
  have hout := post_out env s rep (preOps.map Event.exec ++ [Event.exec Op.repairLoop])
  rw [← hrun, ← hatt] at f1 f2 f3 hout
  have hshape : ∀ (vals : List Int),
      (CImg.ofValues vals env.file.width env.file.height env.file.depth
          env.file.spectrum).width = env.file.width ∧
      (CImg.ofValues vals env.file.width env.file.height env.file.depth
          env.file.spectrum).height = env.file.height ∧
      (CImg.ofValues vals env.file.width env.file.height env.file.depth
          env.file.spectrum).depth = env.file.depth ∧
      (CImg.ofValues vals env.file.width env.file.height env.file.depth
          env.file.spectrum).spectrum = env.file.spectrum := by
    intro vals
    unfold CImg.ofValues
    by_cases h0 : env.file.width * env.file.height * env.file.depth * env.file.spectrum = 0
    · obtain ⟨a, b, c, d⟩ := hvalid h0
      rw [if_pos h0]
      exact ⟨a.symm, b.symm, c.symm, d.symm⟩
    · rw [if_neg h0]
      exact ⟨rfl, rfl, rfl, rfl⟩
  refine ⟨?_, ?_, ?_, ?_, f2, ?_, f3, f1⟩
  · rw [f2]; exact (hshape _).1
  · rw [f2]; exact (hshape _).2.1
  · rw [f2]; exact (hshape _).2.2.1
  · rw [f2]; exact (hshape _).2.2.2
  · rw [hout, readCells_length, List.length_replicate]
    simp [CImg.size]

theorem C6_output_shape_witness :
    (attempt sampleEnv State.blank).state.output_image.width = sampleEnv.file.width ∧
    (attempt sampleEnv State.blank).state.output_image.height = sampleEnv.file.height ∧
    (attempt sampleEnv State.blank).state.output_image.depth = sampleEnv.file.depth ∧
    (attempt sampleEnv State.blank).state.output_image.spectrum = sampleEnv.file.spectrum ∧
    (attempt sampleEnv State.blank).state.output_image =
      CImg.ofValues (attempt sampleEnv State.blank).state.outputBuffer sampleEnv.file.width
        sampleEnv.file.height sampleEnv.file.depth sampleEnv.file.spectrum ∧
    (attempt sampleEnv State.blank).state.outputBuffer.length =
      sampleEnv.file.width * sampleEnv.file.height * sampleEnv.file.depth *
        sampleEnv.file.spectrum ∧
    (attempt sampleEnv State.blank).state.bufSize .outputBuff =
      sampleEnv.file.width * sampleEnv.file.height * sampleEnv.file.depth *
        sampleEnv.file.spectrum ∧
    (attempt sampleEnv State.blank).state.imageInput = sampleEnv.file :=
  C6_output_shape sampleEnv State.blank (fun h => absurd h (by decide))
    (attempt_completes sampleEnv State.blank (fun _ _ => rfl))


theorem buildHandler_events (env : Env) (e : Err) : ∀ (l : List BuildInfo) (ev : Event),
    ev ∈ (buildHandler env e l).1 → (∃ w, ev = Event.exec (Op.getBuildInfo w)) ∨ ev = Event.rethrow e := by
  intro l
  induction l with
  | nil =>
    intro ev h
    simp only [buildHandler, List.mem_singleton] at h
    exact Or.inr h
  | cons w rest ih =>
    intro ev h
    simp only [buildHandler] at h
    cases hw : env.infoFails w with
    | some e1 =>
      simp only [hw, List.mem_singleton] at h
      exact Or.inl ⟨w, h⟩
    | none =>
      simp only [hw, List.mem_cons] at h
      rcases h with h | h
      · exact Or.inl ⟨w, h⟩
      · exact ih ev h

theorem thrownAt_other (env : Env) (op : Op) (e : Err) (h : op ≠ Op.build) :
    thrownAt env op e = ([], e) := by
  cases op <;> first | rfl | exact absurd rfl h

theorem thrownAt_build (env : Env) (code : Int) :
    ∃ evs, (thrownAt env Op.build (Err.clError code)).1 = Event.innerCatch (Err.clError code) :: evs ∧
      ∀ ev, ev ∈ evs →
        (∃ w, ev = Event.exec (Op.getBuildInfo w)) ∨ ev = Event.rethrow (Err.clError code) :=
  ⟨_, rfl, buildHandler_events env _ _⟩

theorem thrownAt_no_dispatch (env : Env) (op : Op) (e : Err) (kid : KernelId) (g : SizeExpr) :
    List.count (Event.exec (Op.enqueueNDRangeKernel kid g)) (thrownAt env op e).1 = 0 := by
  rw [List.count_eq_zero]
  intro hmem
  by_cases hb : op = Op.build
  · subst hb
    cases e with
    | CImgException => simp [thrownAt] at hmem
    | clError code =>
      obtain ⟨evs, hev, hall⟩ := thrownAt_build env code
      rw [hev, List.mem_cons] at hmem
      rcases hmem with h | h
      · exact Event.noConfusion h
      · rcases hall _ h with ⟨w, hw⟩ | hw
        · injection hw with hw
          exact Op.noConfusion hw
        · exact Event.noConfusion hw
  · rw [thrownAt_other env op e hb] at hmem
    simp at hmem

theorem mainOps_dispatch_once (kid : KernelId) (g : SizeExpr) :
    List.count (Event.exec (Op.enqueueNDRangeKernel kid g)) (mainOps.map Event.exec) ≤ 1 := by
  cases kid <;> cases g <;> decide

theorem runOps_trace_extends (env : Env) : ∀ (l : List Op) (pc : Nat) (s : State)
    (tr : List Event), ∃ ext, (runOps env pc l s tr).trace = tr ++ ext := by
  intro l
  induction l with
  | nil => intro pc s tr; exact ⟨[], by simp [runOps]⟩
  | cons op rest ih =>
    intro pc s tr
    simp only [runOps]
    cases hf : env.fails pc with
    | some e => exact ⟨_, rfl⟩
    | none =>
      cases he : effect env op s with
      | none => exact ⟨_, rfl⟩
      | some s1 =>
        obtain ⟨ext, hext⟩ := ih (pc + 1) s1 (tr ++ [Event.exec op])
        exact ⟨Event.exec op :: ext, by simp only [hext, List.append_assoc, List.singleton_append]⟩

theorem runOps_trace_head (env : Env) (op : Op) (rest : List Op) (pc : Nat) (s : State) :
    ∃ t, (runOps env pc (op :: rest) s []).trace = Event.exec op :: t := by
  simp only [runOps]
  cases hf : env.fails pc with
  | some e => exact ⟨_, rfl⟩
  | none =>
    cases he : effect env op s with
    | none => exact ⟨_, rfl⟩
    | some s1 =>
      obtain ⟨ext, hext⟩ := runOps_trace_extends env rest (pc + 1) s1 ([] ++ [Event.exec op])
      exact ⟨ext, by simpa using hext⟩

theorem tryStmt_trace_head (env : Env) (fuel : Nat) (s : State) :
    ∃ t, (tryStmt env fuel s).trace = Event.exec Op.GetContext :: t := by
  obtain ⟨t, ht⟩ : ∃ t, (attempt env s).trace = Event.exec Op.GetContext :: t :=
    runOps_trace_head env Op.GetContext _ 0 s
  unfold tryStmt
  cases hh : (attempt env s).halt with
  | none =>
    simp only []
    cases waitLoop env.signals fuel 0 <;> exact ⟨t, ht⟩
  | some x =>
    cases x with
    | undefined => exact ⟨t, ht⟩
    | thrown e => exact ⟨t ++ [Event.outerCatch e], by simp only [ht, List.cons_append]⟩

set_option maxRecDepth 100000 in
theorem hist_decls (env : Env) (s : State) :
    (runOps env.quiet 0 (mainOps.take 10) s []).halt = none ∧
    (runOps env.quiet 0 (mainOps.take 10) s []).state.intenseHist = List.replicate 256 0 ∧
    (runOps env.quiet 0 (mainOps.take 10) s []).state.cumulativeHist = List.replicate 256 0 ∧
    (runOps env.quiet 0 (mainOps.take 10) s []).state.equalisedHist = List.replicate 256 0 :=
  ⟨rfl, rfl, rfl, rfl⟩

/-- C7, as stated, fails when `program.build()` throws: the error is caught
first by the handler of line 42, which is not a top-level handler, and the
three `getBuildInfo` calls of that handler run after the failing operation,
before line 49 rethrows the error to the handler of line 167. -/
theorem C7_build_failure_counterexample :
    (tryStmt buildFailure 0 State.blank).trace =
      [Event.exec .GetContext, Event.exec .CommandQueue, Event.exec .AddSources,
       Event.exec .Program, Event.exec .getInfoDevices, Event.exec .build,
       Event.innerCatch (.clError (-11)),
       Event.exec (.getBuildInfo .CL_PROGRAM_BUILD_STATUS),
       Event.exec (.getBuildInfo .CL_PROGRAM_BUILD_OPTIONS),
       Event.exec (.getBuildInfo .CL_PROGRAM_BUILD_LOG),
       Event.rethrow (.clError (-11)),
       Event.outerCatch (.clError (-11))] := by
  decide

theorem thrownAt_cimg (env : Env) (op : Op) :
    thrownAt env op Err.CImgException = ([], Err.CImgException) := by
  cases op <;> rfl

theorem thrownAt_build_cases (env : Env) (code : Int) :
    (∀ e1, env.infoFails .CL_PROGRAM_BUILD_STATUS = some e1 →
      thrownAt env Op.build (Err.clError code) =
        ([Event.innerCatch (Err.clError code),
          Event.exec (.getBuildInfo .CL_PROGRAM_BUILD_STATUS)], e1)) ∧
    (∀ e1, env.infoFails .CL_PROGRAM_BUILD_STATUS = none →
      env.infoFails .CL_PROGRAM_BUILD_OPTIONS = some e1 →
      thrownAt env Op.build (Err.clError code) =
        ([Event.innerCatch (Err.clError code),
          Event.exec (.getBuildInfo .CL_PROGRAM_BUILD_STATUS),
          Event.exec (.getBuildInfo .CL_PROGRAM_BUILD_OPTIONS)], e1)) ∧
    (∀ e1, env.infoFails .CL_PROGRAM_BUILD_STATUS = none →
      env.infoFails .CL_PROGRAM_BUILD_OPTIONS = none →
      env.infoFails .CL_PROGRAM_BUILD_LOG = some e1 →
      thrownAt env Op.build (Err.clError code) =
        ([Event.innerCatch (Err.clError code),
          Event.exec (.getBuildInfo .CL_PROGRAM_BUILD_STATUS),
          Event.exec (.getBuildInfo .CL_PROGRAM_BUILD_OPTIONS),
          Event.exec (.getBuildInfo .CL_PROGRAM_BUILD_LOG)], e1)) ∧
    (env.infoFails .CL_PROGRAM_BUILD_STATUS = none →
      env.infoFails .CL_PROGRAM_BUILD_OPTIONS = none →
      env.infoFails .CL_PROGRAM_BUILD_LOG = none →
      thrownAt env Op.build (Err.clError code) =
        ([Event.innerCatch (Err.clError code),
          Event.exec (.getBuildInfo .CL_PROGRAM_BUILD_STATUS),
          Event.exec (.getBuildInfo .CL_PROGRAM_BUILD_OPTIONS),
          Event.exec (.getBuildInfo .CL_PROGRAM_BUILD_LOG),
          Event.rethrow (Err.clError code)], Err.clError code)) := by
  refine ⟨?_, ?_, ?_, ?_⟩
  · intro e1 h1
    simp only [thrownAt, buildInfos, buildHandler, h1]
  · intro e1 h1 h2
    simp only [thrownAt, buildInfos, buildHandler, h1, h2]
  · intro e1 h1 h2 h3
    simp only [thrownAt, buildInfos, buildHandler, h1, h2, h3]
  · intro h1 h2 h3
    simp only [thrownAt, buildInfos, buildHandler, h1, h2, h3]

/-- C7 (amended): a run either completes all four stages or is abandoned: when
an operation of a run (build, buffer transfer, kernel dispatch, image decode,
...) fails with a backend or image error, no later statement of the `try`
block is executed and the error ends the attempt in a top-level handler.
Only a backend error thrown by `program.build()` is first caught by the
handler of lines 42-50: it makes its three `getBuildInfo` calls in the order
status, options, log and then rethrows the very error it caught; if one of
the calls throws, no later call is made, nothing is rethrown and the error of
that call reaches the top-level handler instead.  No kernel is dispatched
twice, and the next attempt starts again at the first statement and
re-creates its three histogram vectors as 256 zeros. -/
theorem C7_abandoned_on_error (env : Env) (s : State) (fuel k : Nat) (op : Op) (e : Err)
    (hk : mainOps[k]? = some op) (hf : env.fails k = some e)
    (hbefore : ∀ j, j < k → env.fails j = none) :
    (tryStmt env fuel s).ending = TryEnd.caught (thrownAt env op e).2 ∧
    (tryStmt env fuel s).trace =
      (mainOps.take (k + 1)).map Event.exec ++ (thrownAt env op e).1 ++
        [Event.outerCatch (thrownAt env op e).2] ∧
    (op ≠ Op.build → thrownAt env op e = ([], e)) ∧
    (e = Err.CImgException → thrownAt env op e = ([], e)) ∧
    (∀ code, op = Op.build → e = Err.clError code →
      ∃ evs, (thrownAt env op e).1 = Event.innerCatch e :: evs ∧
        ∀ ev, ev ∈ evs → (∃ w, ev = Event.exec (Op.getBuildInfo w)) ∨ ev = Event.rethrow e) ∧
    (∀ code, op = Op.build → e = Err.clError code →
      (env.infoFails .CL_PROGRAM_BUILD_STATUS = none →
        env.infoFails .CL_PROGRAM_BUILD_OPTIONS = none →
        env.infoFails .CL_PROGRAM_BUILD_LOG = none →
        thrownAt env op e =
          ([Event.innerCatch e,
            Event.exec (.getBuildInfo .CL_PROGRAM_BUILD_STATUS),
            Event.exec (.getBuildInfo .CL_PROGRAM_BUILD_OPTIONS),
            Event.exec (.getBuildInfo .CL_PROGRAM_BUILD_LOG),
            Event.rethrow e], e)) ∧
      (∀ e1, env.infoFails .CL_PROGRAM_BUILD_STATUS = some e1 →
        thrownAt env op e =
          ([Event.innerCatch e,
            Event.exec (.getBuildInfo .CL_PROGRAM_BUILD_STATUS)], e1)) ∧
      (∀ e1, env.infoFails .CL_PROGRAM_BUILD_STATUS = none →
        env.infoFails .CL_PROGRAM_BUILD_OPTIONS = some e1 →
        thrownAt env op e =
          ([Event.innerCatch e,
            Event.exec (.getBuildInfo .CL_PROGRAM_BUILD_STATUS),
            Event.exec (.getBuildInfo .CL_PROGRAM_BUILD_OPTIONS)], e1)) ∧
      (∀ e1, env.infoFails .CL_PROGRAM_BUILD_STATUS = none →
        env.infoFails .CL_PROGRAM_BUILD_OPTIONS = none →
        env.infoFails .CL_PROGRAM_BUILD_LOG = some e1 →
        thrownAt env op e =
          ([Event.innerCatch e,
            Event.exec (.getBuildInfo .CL_PROGRAM_BUILD_STATUS),
            Event.exec (.getBuildInfo .CL_PROGRAM_BUILD_OPTIONS),
            Event.exec (.getBuildInfo .CL_PROGRAM_BUILD_LOG)], e1))) ∧
    (∀ kid g, List.count (Event.exec (Op.enqueueNDRangeKernel kid g))
      (tryStmt env fuel s).trace ≤ 1) ∧
    (∀ env2 fuel2, ∃ t, (tryStmt env2 fuel2 (tryStmt env fuel s).state).trace =
      Event.exec Op.GetContext :: t) ∧
    (∀ env2, (∀ j, j < 10 → env2.fails j = none) →
      (runOps env2 0 (mainOps.take 10) (tryStmt env fuel s).state []).halt = none ∧
      (runOps env2 0 (mainOps.take 10) (tryStmt env fuel s).state []).state.intenseHist =
        List.replicate 256 0 ∧
      (runOps env2 0 (mainOps.take 10) (tryStmt env fuel s).state []).state.cumulativeHist =
        List.replicate 256 0 ∧
      (runOps env2 0 (mainOps.take 10) (tryStmt env fuel s).state []).state.equalisedHist =
        List.replicate 256 0) := by
  obtain ⟨hh, ht⟩ := runOps_first_throw env mainOps 0 s [] k op e hk
    (by rw [Nat.zero_add]; exact hf)
    (fun j hj => by rw [Nat.zero_add]; exact hbefore j hj) (attempt_defined env s)
  have hh2 : (attempt env s).halt = some (Halt.thrown (thrownAt env op e).2) := hh
  have ht2 : (attempt env s).trace =
      (mainOps.take (k + 1)).map Event.exec ++ (thrownAt env op e).1 := by
    have : (attempt env s).trace = _ := ht
    rw [this, List.nil_append]
  have hend : (tryStmt env fuel s).ending = TryEnd.caught (thrownAt env op e).2 := by
    simp only [tryStmt, hh2]
  have htr : (tryStmt env fuel s).trace =
      (mainOps.take (k + 1)).map Event.exec ++ (thrownAt env op e).1 ++
        [Event.outerCatch (thrownAt env op e).2] := by
    simp only [tryStmt, hh2, ht2]
  refine ⟨hend, htr, thrownAt_other env op e, ?_, ?_, ?_, ?_, ?_, ?_⟩
  · intro he
    subst he
    exact thrownAt_cimg env op
  · intro code hop he
    subst hop
    subst he
    exact thrownAt_build env code
  · intro code hop he
    subst hop
    subst he
    obtain ⟨c1, c2, c3, c4⟩ := thrownAt_build_cases env code
    exact ⟨c4, c1, c2, c3⟩
  · intro kid g
    rw [htr, List.count_append, List.count_append, thrownAt_no_dispatch]
    have h1 : List.count (Event.exec (Op.enqueueNDRangeKernel kid g))
        ((mainOps.take (k + 1)).map Event.exec) ≤ 1 :=
      le_trans (List.Sublist.count_le ((List.take_sublist _ _).map _) _)
        (mainOps_dispatch_once kid g)
    have h2 : List.count (Event.exec (Op.enqueueNDRangeKernel kid g))
        [Event.outerCatch (thrownAt env op e).2] = 0 := by
      rw [List.count_eq_zero]
      intro hmem
      rw [List.mem_singleton] at hmem
      exact Event.noConfusion hmem
    omega
  · intro env2 fuel2
    exact tryStmt_trace_head env2 fuel2 _
  · intro env2 h2
    have hq := runOps_quiet env2 (mainOps.take 10) 0 (tryStmt env fuel s).state []
      (fun j hj => by
        rw [Nat.zero_add]
        have h10 : (mainOps.take 10).length = 10 := rfl
        exact h2 j (by omega))
    rw [hq]
    exact hist_decls env2 _

theorem C7_abandoned_on_error_witness :
    (tryStmt buildFailure 3 State.blank).ending =
      TryEnd.caught (thrownAt buildFailure Op.build (Err.clError (-11))).2 ∧
    (tryStmt buildFailure 3 State.blank).trace =
      (mainOps.take (5 + 1)).map Event.exec ++
        (thrownAt buildFailure Op.build (Err.clError (-11))).1 ++
        [Event.outerCatch (thrownAt buildFailure Op.build (Err.clError (-11))).2] ∧
    (Op.build ≠ Op.build →
      thrownAt buildFailure Op.build (Err.clError (-11)) = ([], Err.clError (-11))) ∧
    (Err.clError (-11) = Err.CImgException →
      thrownAt buildFailure Op.build (Err.clError (-11)) = ([], Err.clError (-11))) ∧
    (∀ code, Op.build = Op.build → Err.clError (-11) = Err.clError code →
      ∃ evs, (thrownAt buildFailure Op.build (Err.clError (-11))).1 =
          Event.innerCatch (Err.clError (-11)) :: evs ∧
        ∀ ev, ev ∈ evs → (∃ w, ev = Event.exec (Op.getBuildInfo w)) ∨
          ev = Event.rethrow (Err.clError (-11))) ∧
    (∀ code, Op.build = Op.build → Err.clError (-11) = Err.clError code →
      (buildFailure.infoFails .CL_PROGRAM_BUILD_STATUS = none →
        buildFailure.infoFails .CL_PROGRAM_BUILD_OPTIONS = none →
        buildFailure.infoFails .CL_PROGRAM_BUILD_LOG = none →
        thrownAt buildFailure Op.build (Err.clError (-11)) =
          ([Event.innerCatch (Err.clError (-11)),
            Event.exec (.getBuildInfo .CL_PROGRAM_BUILD_STATUS),
            Event.exec (.getBuildInfo .CL_PROGRAM_BUILD_OPTIONS),
            Event.exec (.getBuildInfo .CL_PROGRAM_BUILD_LOG),
            Event.rethrow (Err.clError (-11))], (Err.clError (-11)))) ∧
      (∀ e1, buildFailure.infoFails .CL_PROGRAM_BUILD_STATUS = some e1 →
        thrownAt buildFailure Op.build (Err.clError (-11)) =
          ([Event.innerCatch (Err.clError (-11)),
            Event.exec (.getBuildInfo .CL_PROGRAM_BUILD_STATUS)], e1)) ∧
      (∀ e1, buildFailure.infoFails .CL_PROGRAM_BUILD_STATUS = none →
        buildFailure.infoFails .CL_PROGRAM_BUILD_OPTIONS = some e1 →
        thrownAt buildFailure Op.build (Err.clError (-11)) =
          ([Event.innerCatch (Err.clError (-11)),
            Event.exec (.getBuildInfo .CL_PROGRAM_BUILD_STATUS),
            Event.exec (.getBuildInfo .CL_PROGRAM_BUILD_OPTIONS)], e1)) ∧
      (∀ e1, buildFailure.infoFails .CL_PROGRAM_BUILD_STATUS = none →
        buildFailure.infoFails .CL_PROGRAM_BUILD_OPTIONS = none →
        buildFailure.infoFails .CL_PROGRAM_BUILD_LOG = some e1 →
        thrownAt buildFailure Op.build (Err.clError (-11)) =
          ([Event.innerCatch (Err.clError (-11)),
            Event.exec (.getBuildInfo .CL_PROGRAM_BUILD_STATUS),
            Event.exec (.getBuildInfo .CL_PROGRAM_BUILD_OPTIONS),
            Event.exec (.getBuildInfo .CL_PROGRAM_BUILD_LOG)], e1))) ∧
    (∀ kid g, List.count (Event.exec (Op.enqueueNDRangeKernel kid g))
      (tryStmt buildFailure 3 State.blank).trace ≤ 1) ∧
    (∀ env2 fuel2, ∃ t, (tryStmt env2 fuel2 (tryStmt buildFailure 3 State.blank).state).trace =
      Event.exec Op.GetContext :: t) ∧
    (∀ env2, (∀ j, j < 10 → env2.fails j = none) →
      (runOps env2 0 (mainOps.take 10) (tryStmt buildFailure 3 State.blank).state []).halt = none ∧
      (runOps env2 0 (mainOps.take 10)
        (tryStmt buildFailure 3 State.blank).state []).state.intenseHist = List.replicate 256 0 ∧
      (runOps env2 0 (mainOps.take 10)
        (tryStmt buildFailure 3 State.blank).state []).state.cumulativeHist = List.replicate 256 0 ∧
      (runOps env2 0 (mainOps.take 10)
        (tryStmt buildFailure 3 State.blank).state []).state.equalisedHist = List.replicate 256 0) :=
  C7_abandoned_on_error buildFailure State.blank 3 5 Op.build (Err.clError (-11)) (by rfl) (by rfl)
    (fun j hj => by
      have : j ≠ 5 := by omega
      simp [buildFailure, this])

/-- C9 fails on the code: with escape pressed in the output window and no
other signal raised, the condition of line 161 is still true, and the loop
never ends while the signals stay so.  The condition tests
`showInput.is_keyESC()` twice and never `showOutput.is_keyESC()`. -/
theorem C9_output_escape_ignored :
    waitCond ⟨false, false, false, true⟩ = true ∧
    (∀ fuel t, waitLoop (fun _ => ⟨false, false, false, true⟩) fuel t = none) ∧
    (∀ g, waitCond g =
      (!g.showInput_is_closed && !g.showInput_is_keyESC && !g.showOutput_is_closed)) := by
  refine ⟨rfl, ?_, ?_⟩
  · intro fuel
    induction fuel with
    | zero => intro t; rfl
    | succ n ih =>
      intro t
      simp only [waitLoop]
      exact ih (t + 1)
  · intro g
    cases g with
    | mk a b c d => cases a <;> cases b <;> cases c <;> cases d <;> rfl

theorem tryStmt_defined (env : Env) (fuel : Nat) (s : State) :
    (tryStmt env fuel s).ending ≠ TryEnd.undefined := by
  unfold tryStmt
  cases hh : (attempt env s).halt with
  | none =>
    simp only []
    cases waitLoop env.signals fuel 0 <;> simp
  | some x =>
    cases x with
    | undefined => exact absurd hh (attempt_defined env s)
    | thrown e => simp

theorem waitLoop_none (signals : Nat → Signals) : ∀ (fuel t0 : Nat),
    waitLoop signals fuel t0 = none ↔ ∀ t, t < fuel → waitCond (signals (t0 + t)) = true := by
  intro fuel
  induction fuel with
  | zero => intro t0; simp [waitLoop]
  | succ n ih =>
    intro t0
    simp only [waitLoop]
    by_cases hc : waitCond (signals t0) = true
    · rw [if_pos hc, ih (t0 + 1)]
      constructor
      · intro h t ht
        cases t with
        | zero => exact hc
        | succ t =>
          have := h t (by omega)
          rwa [Nat.add_assoc, Nat.add_comm 1 t] at this
      · intro h t ht
        have := h (t + 1) (by omega)
        rwa [Nat.add_assoc, Nat.add_comm 1 t]
    · rw [if_neg hc]
      constructor
      · intro h
        exact Option.noConfusion h
      · intro h
        exact absurd (h 0 (by omega)) hc

theorem tryStmt_ending (env : Env) (fuel : Nat) (s : State) :
    ((tryStmt env fuel s).ending = TryEnd.waiting ↔
      (attempt env s).halt = none ∧ waitLoop env.signals fuel 0 = none) ∧
    ((tryStmt env fuel s).ending = TryEnd.waitEnded ↔
      (attempt env s).halt = none ∧ ∃ t, waitLoop env.signals fuel 0 = some t) ∧
    (∀ e, (tryStmt env fuel s).ending = TryEnd.caught e ↔
      (attempt env s).halt = some (Halt.thrown e)) := by
  unfold tryStmt
  cases hh : (attempt env s).halt with
  | none =>
    simp only []
    cases hw : waitLoop env.signals fuel 0 with
    | none => simp
    | some t => simp
  | some x =>
    cases x with
    | undefined => simp
    | thrown e => simp

theorem iterState_succ (envs : Nat → Env) (fuel : Nat) : ∀ (i n : Nat) (s : State),
    iterState envs fuel (i + 1) n s =
      (tryStmt (envs (n + i)) fuel (iterState envs fuel i n s)).state := by
  intro i
  induction i with
  | zero => intro n s; rfl
  | succ i ih =>
    intro n s
    have h := ih (n + 1) (tryStmt (envs n) fuel s).state
    have hidx : n + 1 + i = n + (i + 1) := by omega
    rw [hidx] at h
    exact h

theorem mainLoop_spec (mainAddr : Nat) (hmain : mainAddr ≠ 0) (envs : Nat → Env) (fuel : Nat) :
    ∀ (k n : Nat) (s : State) (log : List TryEnd),
      (mainLoop mainAddr envs fuel k n s log).returned = false ∧
      ∃ ext, (mainLoop mainAddr envs fuel k n s log).log = log ++ ext ∧
        (ext.length = k ∨ ext.getLast? = some TryEnd.waiting) ∧
        (∀ x, x ∈ ext → x ≠ TryEnd.undefined) ∧
        (∀ i, i < k →
          (∀ j, j < i →
            (tryStmt (envs (n + j)) fuel (iterState envs fuel j n s)).ending ≠ TryEnd.waiting) →
          ext[i]? = some (tryStmt (envs (n + i)) fuel (iterState envs fuel i n s)).ending) ∧
        (∀ i, i < ext.length → ∀ j, j < i →
          (tryStmt (envs (n + j)) fuel (iterState envs fuel j n s)).ending ≠ TryEnd.waiting) := by
  intro k
  induction k with
  | zero =>
    intro n s log
    exact ⟨by simp [mainLoop, hmain], [], by simp [mainLoop], Or.inl rfl,
      fun x hx => by simp at hx, fun i hi => absurd hi (by omega),
      fun i hi => absurd hi (by simp)⟩
  | succ k ih =>
    intro n s log
    have hstep : ∀ j, (tryStmt (envs (n + (j + 1))) fuel (iterState envs fuel (j + 1) n s)).ending =
        (tryStmt (envs (n + 1 + j)) fuel
          (iterState envs fuel j (n + 1) (tryStmt (envs n) fuel s).state)).ending := by
      intro j
      have hidx : n + (j + 1) = n + 1 + j := by omega
      rw [hidx]
      rfl
    have hzero : (tryStmt (envs (n + 0)) fuel (iterState envs fuel 0 n s)).ending =
        (tryStmt (envs n) fuel s).ending := rfl
    simp only [mainLoop, if_pos hmain]
    cases he : (tryStmt (envs n) fuel s).ending with
    | waiting =>
      refine ⟨rfl, [TryEnd.waiting], rfl, Or.inr rfl, ?_, ?_, ?_⟩
      · intro x hx
        rw [List.mem_singleton] at hx
        rw [hx]
        exact fun h => TryEnd.noConfusion h
      · intro i _ hbefore
        cases i with
        | zero => rw [hzero, he, List.getElem?_cons_zero]
        | succ i => exact absurd (hzero.trans he) (hbefore 0 (by omega))
      · intro i hi j hj
        simp only [List.length_singleton] at hi
        omega
    | undefined => exact absurd he (tryStmt_defined _ _ _)
    | waitEnded =>
      obtain ⟨h1, ext, h2, h3, h4, h5, h6⟩ := ih (n + 1) (tryStmt (envs n) fuel s).state
        (log ++ [TryEnd.waitEnded])
      refine ⟨h1, TryEnd.waitEnded :: ext,
        by simp only [h2, List.append_assoc, List.singleton_append], ?_, ?_, ?_, ?_⟩
      · rcases h3 with h3 | h3
        · exact Or.inl (by simp [h3])
        · refine Or.inr ?_
          cases ext with
          | nil => simp at h3
          | cons a b => simpa [List.getLast?_cons_cons] using h3
      · intro x hx
        rw [List.mem_cons] at hx
        rcases hx with hx | hx
        · rw [hx]
          exact fun h => TryEnd.noConfusion h
        · exact h4 x hx
      · intro i hi hbefore
        cases i with
        | zero => rw [hzero, he, List.getElem?_cons_zero]
        | succ i =>
          rw [List.getElem?_cons_succ, hstep i]
          apply h5 i (by omega)
          intro j hj
          rw [← hstep j]
          exact hbefore (j + 1) (by omega)
      · intro i hi j hj
        cases j with
        | zero =>
          rw [hzero, he]
          exact fun h => TryEnd.noConfusion h
        | succ j =>
          rw [hstep j]
          cases i with
          | zero => omega
          | succ i =>
            exact h6 i (by simpa using hi) j (by omega)
    | caught e =>
      obtain ⟨h1, ext, h2, h3, h4, h5, h6⟩ := ih (n + 1) (tryStmt (envs n) fuel s).state
        (log ++ [TryEnd.caught e])
      refine ⟨h1, TryEnd.caught e :: ext,
        by simp only [h2, List.append_assoc, List.singleton_append], ?_, ?_, ?_, ?_⟩
      · rcases h3 with h3 | h3
        · exact Or.inl (by simp [h3])
        · refine Or.inr ?_
          cases ext with
          | nil => simp at h3
          | cons a b => simpa [List.getLast?_cons_cons] using h3
      · intro x hx
        rw [List.mem_cons] at hx
        rcases hx with hx | hx
        · rw [hx]
          exact fun h => TryEnd.noConfusion h
        · exact h4 x hx
      · intro i hi hbefore
        cases i with
        | zero => rw [hzero, he, List.getElem?_cons_zero]
        | succ i =>
          rw [List.getElem?_cons_succ, hstep i]
          apply h5 i (by omega)
          intro j hj
          rw [← hstep j]
          exact hbefore (j + 1) (by omega)
      · intro i hi j hj
        cases j with
        | zero =>
          rw [hzero, he]
          exact fun h => TryEnd.noConfusion h
        | succ j =>
          rw [hstep j]
          cases i with
          | zero => omega
          | succ i =>
            exact h6 i (by simpa using hi) j (by omega)

/-- C10: the outer loop is unbounded.  The function designator `main` is
never null, so in no execution, however many iterations are observed, is
`return 0` reached.  Iteration i is entered, from the variables the iteration
before left and starting again at the first statement, as soon as the `try`
statement of every earlier iteration has ended, whether by the end of its
display-wait loop or in a handler that caught an error; its `try` statement is
the one recorded.  The only iterations not followed by another are those
still inside a display-wait loop whose condition was true at every
evaluation observed. -/
theorem C10_outer_loop_unbounded (mainAddr : Nat) (hmain : mainAddr ≠ 0) (envs : Nat → Env)
    (fuel k : Nat) (s : State) :
    (mainLoop mainAddr envs fuel k 0 s []).returned = false ∧
    ((mainLoop mainAddr envs fuel k 0 s []).log.length = k ∨
      (mainLoop mainAddr envs fuel k 0 s []).log.getLast? = some TryEnd.waiting) ∧
    (∀ x, x ∈ (mainLoop mainAddr envs fuel k 0 s []).log → x ≠ TryEnd.undefined) ∧
    (∀ i, i < k →
      (∀ j, j < i →
        (tryStmt (envs j) fuel (iterState envs fuel j 0 s)).ending ≠ TryEnd.waiting) →
      (mainLoop mainAddr envs fuel k 0 s []).log[i]? =
        some (tryStmt (envs i) fuel (iterState envs fuel i 0 s)).ending) ∧
    (∀ i, i < (mainLoop mainAddr envs fuel k 0 s []).log.length → ∀ j, j < i →
      (tryStmt (envs j) fuel (iterState envs fuel j 0 s)).ending ≠ TryEnd.waiting) ∧
    iterState envs fuel 0 0 s = s ∧
    (∀ i, iterState envs fuel (i + 1) 0 s =
      (tryStmt (envs i) fuel (iterState envs fuel i 0 s)).state) ∧
    (∀ i u,
      ((tryStmt (envs i) fuel u).ending = TryEnd.waiting ↔
        (attempt (envs i) u).halt = none ∧
          ∀ t, t < fuel → waitCond ((envs i).signals t) = true) ∧
      ((tryStmt (envs i) fuel u).ending = TryEnd.waitEnded ↔
        (attempt (envs i) u).halt = none ∧ ∃ t, waitLoop (envs i).signals fuel 0 = some t) ∧
      (∀ e, (tryStmt (envs i) fuel u).ending = TryEnd.caught e ↔
        (attempt (envs i) u).halt = some (Halt.thrown e)) ∧
      ∃ t, (tryStmt (envs i) fuel u).trace = Event.exec Op.GetContext :: t) := by
  obtain ⟨h1, ext, h2, h3, h4, h5, h6⟩ := mainLoop_spec mainAddr hmain envs fuel k 0 s []
  rw [List.nil_append] at h2
  rw [h2]
  refine ⟨h1, h3, h4, ?_, ?_, rfl, ?_, ?_⟩
  · intro i hi hbefore
    have := h5 i hi (fun j hj => by rw [Nat.zero_add]; exact hbefore j hj)
    rwa [Nat.zero_add] at this
  · intro i hi j hj
    have := h6 i hi j hj
    rwa [Nat.zero_add] at this
  · intro i
    have := iterState_succ envs fuel i 0 s
    rwa [Nat.zero_add] at this
  · intro i u
    obtain ⟨e1, e2, e3⟩ := tryStmt_ending (envs i) fuel u
    refine ⟨?_, e2, e3, tryStmt_trace_head (envs i) fuel u⟩
    rw [e1, waitLoop_none]
    simp only [Nat.zero_add]

theorem C10_outer_loop_unbounded_witness :
    (mainLoop 1 (fun _ => sampleEnv) 3 2 0 State.blank []).returned = false ∧
    ((mainLoop 1 (fun _ => sampleEnv) 3 2 0 State.blank []).log.length = 2 ∨
      (mainLoop 1 (fun _ => sampleEnv) 3 2 0 State.blank []).log.getLast? = some TryEnd.waiting) ∧
    (∀ x, x ∈ (mainLoop 1 (fun _ => sampleEnv) 3 2 0 State.blank []).log →
      x ≠ TryEnd.undefined) ∧
    (∀ i, i < 2 →
      (∀ j, j < i →
        (tryStmt sampleEnv 3 (iterState (fun _ => sampleEnv) 3 j 0 State.blank)).ending ≠
          TryEnd.waiting) →
      (mainLoop 1 (fun _ => sampleEnv) 3 2 0 State.blank []).log[i]? =
        some (tryStmt sampleEnv 3 (iterState (fun _ => sampleEnv) 3 i 0 State.blank)).ending) ∧
    (∀ i, i < (mainLoop 1 (fun _ => sampleEnv) 3 2 0 State.blank []).log.length → ∀ j, j < i →
      (tryStmt sampleEnv 3 (iterState (fun _ => sampleEnv) 3 j 0 State.blank)).ending ≠
        TryEnd.waiting) ∧
    iterState (fun _ => sampleEnv) 3 0 0 State.blank = State.blank ∧
    (∀ i, iterState (fun _ => sampleEnv) 3 (i + 1) 0 State.blank =
      (tryStmt sampleEnv 3 (iterState (fun _ => sampleEnv) 3 i 0 State.blank)).state) ∧
    (∀ (_ : Nat) u,
      ((tryStmt sampleEnv 3 u).ending = TryEnd.waiting ↔
        (attempt sampleEnv u).halt = none ∧
          ∀ t, t < 3 → waitCond (sampleEnv.signals t) = true) ∧
      ((tryStmt sampleEnv 3 u).ending = TryEnd.waitEnded ↔
        (attempt sampleEnv u).halt = none ∧ ∃ t, waitLoop sampleEnv.signals 3 0 = some t) ∧
      (∀ e, (tryStmt sampleEnv 3 u).ending = TryEnd.caught e ↔
        (attempt sampleEnv u).halt = some (Halt.thrown e)) ∧
      ∃ t, (tryStmt sampleEnv 3 u).trace = Event.exec Op.GetContext :: t) :=
  C10_outer_loop_unbounded 1 (by decide) (fun _ => sampleEnv) 3 2 State.blank

theorem intenseHistDispatch_apply (input : Mem) : ∀ (schedule : List Nat) (hist : Mem) (v : Nat),
    intenseHistDispatch schedule input hist v =
      hist v + (schedule.countP (fun id => decide (v = (input id).toNat)) : Nat) := by
  intro schedule
  induction schedule with
  | nil => intro hist v; simp [intenseHistDispatch]
  | cons id rest ih =>
    intro hist v
    have hstep : intenseHistDispatch (id :: rest) input hist =
        intenseHistDispatch rest input (intenseHistWorkItem input hist id) := rfl
    rw [hstep, ih, List.countP_cons]
    unfold intenseHistWorkItem
    by_cases hv : v = (input id).toNat
    · simp only [hv, if_true, decide_True, if_pos]
      push_cast
      ring
    · simp only [hv, if_false, decide_False]
      simp

theorem countP_range_eq_count (data : List Int) (v : Nat)
    (hrange : ∀ x, x ∈ data → 0 ≤ x) (fresh : Mem) :
    (List.range data.length).countP
      (fun id => decide (v = (writeCells data.length data fresh id).toNat)) =
      data.count (v : Int) := by
  have hmap : (List.range data.length).map (fun id => writeCells data.length data fresh id) = data := by
    apply List.ext_getElem?
    intro i
    by_cases hi : i < data.length
    · rw [List.getElem?_map, List.getElem?_range hi]
      simp only [Option.map_some', writeCells, if_pos hi]
      simp [List.getD, List.getElem?_eq_getElem hi]
    · rw [List.getElem?_eq_none (by simpa using hi), List.getElem?_eq_none (by omega)]
  have hc : (List.range data.length).countP
      (fun id => decide (v = (writeCells data.length data fresh id).toNat)) =
      ((List.range data.length).map (fun id => writeCells data.length data fresh id)).countP
        (fun x => decide (v = x.toNat)) := by
    rw [List.countP_map]
    rfl
  rw [hc, hmap, List.count, List.countP_congr]
  intro x hx
  have h0 := hrange x hx
  simp only [decide_eq_true_eq, beq_iff_eq]
  omega

theorem sum_indicator (x : Int) : ∀ n : Nat,
    ((List.range n).map (fun v : Nat => if x = (v : Int) then (1 : Int) else 0)).sum =
      if 0 ≤ x ∧ x < n then 1 else 0 := by
  intro n
  induction n with
  | zero =>
    simp only [List.range_zero, List.map_nil, List.sum_nil]
    rw [if_neg]
    intro h
    have := h.2
    simp at this
    omega
  | succ n ih =>
    rw [List.range_succ, List.map_append, List.sum_append, ih]
    simp only [List.map_cons, List.map_nil, List.sum_cons, List.sum_nil, add_zero]
    push_cast
    by_cases h1 : x = (n : Int)
    · rw [if_pos h1, if_neg (by omega), if_pos (by omega)]
      rfl
    · rw [if_neg h1]
      by_cases h2 : 0 ≤ x ∧ x < (n : Int)
      · rw [if_pos h2, if_pos (by omega)]
        rfl
      · rw [if_neg h2, if_neg (by omega)]
        rfl

theorem sum_counts (n : Nat) : ∀ data : List Int, (∀ x, x ∈ data → 0 ≤ x ∧ x < n) →
    ((List.range n).map (fun v : Nat => (data.count (v : Int) : Int))).sum = data.length := by
  intro data
  induction data with
  | nil => intro _; simp
  | cons x xs ih =>
    intro h
    have hx := h x (List.mem_cons_self _ _)
    have hfun : (fun v : Nat => ((x :: xs).count (v : Int) : Int)) =
        fun v : Nat => (xs.count (v : Int) : Int) + (if x = (v : Int) then (1 : Int) else 0) := by
      funext v
      rw [List.count_cons]
      by_cases hv : x = (v : Int)
      · simp [hv]
      · simp [hv]
    rw [hfun, List.sum_map_add, ih (fun y hy => h y (List.mem_cons_of_mem _ hy)), sum_indicator,
      if_pos hx]
    simp

/-- C8: for every valid image (samples in 0..255), the histogram the Histogram
Builder leaves, started from 256 zeros with one work item per input sample,
each work item doing one atomic increment, is exact under any interleaving of
the work items: entry v is the number of samples equal to v, and the entries
sum to the sample count N. -/
theorem C8_histogram_exact (img : CImg) (schedule : List Nat) (freshInput freshHist : Mem)
    (hdata : img.data.length = img.size)
    (hsched : schedule.Perm (List.range img.size))
    (hvalid : ∀ x, x ∈ img.data → 0 ≤ x ∧ x < 256) :
    (readCells bin
      (intenseHistDispatch schedule (writeCells img.size img.data freshInput)
        (writeCells bin (List.replicate bin 0) freshHist)) (List.replicate bin 0)).length = 256 ∧
    (∀ v, v < 256 →
      (readCells bin
        (intenseHistDispatch schedule (writeCells img.size img.data freshInput)
          (writeCells bin (List.replicate bin 0) freshHist)) (List.replicate bin 0)).getD v 0 =
        (img.data.count (v : Int) : Int)) ∧
    (readCells bin
      (intenseHistDispatch schedule (writeCells img.size img.data freshInput)
        (writeCells bin (List.replicate bin 0) freshHist)) (List.replicate bin 0)).sum =
      img.size := by
  rw [← hdata] at hsched ⊢
  have hcell : ∀ v, v < 256 →
      intenseHistDispatch schedule (writeCells img.data.length img.data freshInput)
        (writeCells bin (List.replicate bin 0) freshHist) v = (img.data.count (v : Int) : Int) := by
    intro v hv
    rw [intenseHistDispatch_apply, hsched.countP_eq,
      countP_range_eq_count img.data v (fun x hx => (hvalid x hx).1) freshInput]
    have hz : writeCells bin (List.replicate bin 0) freshHist v = 0 := by
      have hv2 : v < bin := hv
      simp only [writeCells, if_pos hv2]
      apply getD_of_getElem?
      rw [List.getElem?_replicate, if_pos hv2]
    rw [hz, zero_add]
  have hread : ∀ m : Mem, readCells bin m (List.replicate bin 0) = (List.range 256).map m := by
    intro m
    unfold readCells
    rw [List.drop_eq_nil_of_le (by rw [List.length_replicate]), List.append_nil]
    rfl
  have hmapeq : (List.range 256).map
      (intenseHistDispatch schedule (writeCells img.data.length img.data freshInput)
        (writeCells bin (List.replicate bin 0) freshHist)) =
      (List.range 256).map (fun v : Nat => (img.data.count (v : Int) : Int)) := by
    apply List.map_congr_left
    intro v hv
    exact hcell v (List.mem_range.mp hv)
  rw [hread, hmapeq]
  refine ⟨by rw [List.length_map, List.length_range], ?_, ?_⟩
  · intro v hv
    apply getD_of_getElem?
    rw [List.getElem?_map, List.getElem?_range hv]
    rfl
  · exact sum_counts 256 img.data hvalid

theorem C8_histogram_exact_witness :
    (readCells bin
      (intenseHistDispatch [3, 1, 0, 2] (writeCells sampleEnv.file.size sampleEnv.file.data
        (fun _ => 7)) (writeCells bin (List.replicate bin 0) (fun _ => 7)))
      (List.replicate bin 0)).length = 256 ∧
    (∀ v, v < 256 →
      (readCells bin
        (intenseHistDispatch [3, 1, 0, 2] (writeCells sampleEnv.file.size sampleEnv.file.data
          (fun _ => 7)) (writeCells bin (List.replicate bin 0) (fun _ => 7)))
        (List.replicate bin 0)).getD v 0 = (sampleEnv.file.data.count (v : Int) : Int)) ∧
    (readCells bin
      (intenseHistDispatch [3, 1, 0, 2] (writeCells sampleEnv.file.size sampleEnv.file.data
        (fun _ => 7)) (writeCells bin (List.replicate bin 0) (fun _ => 7)))
      (List.replicate bin 0)).sum = sampleEnv.file.size :=
  C8_histogram_exact sampleEnv.file [3, 1, 0, 2] (fun _ => 7) (fun _ => 7) (by rfl) (by decide)
    (by decide)

end PPAssignment
